import Mathlib

/-!
# Bulk-import upload orchestrator of `RMTemplate.js`

A shallow embedding of the upload part of the `RM` React component
(`src/frontend/sellout/src/RMTemplate.js`): the duration estimator
`calculateUploadTime`, the two overlay timers, and the asynchronous function
`cargarExcelRM`, cut at its suspension points into the handlers of an event
loop.

JavaScript numbers are modelled as exact rationals (`ℚ`): every quantity the
estimator and the timers compute is obtained by ring operations, `min` and
`max`, and rounding of IEEE doubles is outside the model.
-/

namespace RMTemplate

/-! ## Duration estimator -/

/-- The function `calculateUploadTime` (lines 98-107): estimated duration in
milliseconds of the upload of a file of `fileSize` bytes. -/
def calculateUploadTime (fileSize : ℚ) : ℚ :=
  let fileSizeMB := fileSize / (1024 * 1024)
  let uploadSpeedMBps : ℚ := 0.5
  let baseProcessingTime : ℚ := 10000
  let processingTimePerMB : ℚ := 1000
  let uploadTimeMs := (fileSizeMB / uploadSpeedMBps) * 1000
  let processingTimeMs := baseProcessingTime + (fileSizeMB * processingTimePerMB)
  let totalEstimatedTime := (uploadTimeMs + processingTimeMs) * 1.5
  min (max totalEstimatedTime 15000) 900000

/-- Clamping of `x` to the closed interval `[lo, hi]`, as the specification
words it: values below `lo` become `lo`, values above `hi` become `hi`. -/
def clampTo (lo hi x : ℚ) : ℚ :=
  if x < lo then lo else if hi < x then hi else x

/-- The reference estimate, following the words of the specification: bytes to
megabytes, transfer time at 0.5 MB/s, processing overhead of 10000 ms plus
1000 ms per megabyte, a 1.5 safety multiplier, clamped to [15000, 900000]. -/
def estimateSpec (sizeBytes : ℚ) : ℚ :=
  let mb := sizeBytes / 1048576
  let transfer := (mb / (1 / 2)) * 1000
  let processing := 10000 + 1000 * mb
  clampTo 15000 900000 ((transfer + processing) * (3 / 2))

/-! ## Small helpers of the module -/

/-- The function `Math.round`: the nearest integer, halves rounded up. -/
def mathRound (x : ℚ) : ℤ := ⌊x + 1 / 2⌋

/-- The expression `String(n).padStart(2, "0")` on the decimal digits of a
natural number. -/
def padStart2 (digits : String) : String :=
  String.mk (List.replicate (2 - digits.length) '0') ++ digits

/-! ### Numbers as IEEE doubles

`formatDuration` is applied to numbers of any size, and beyond the integers
below 2^53 the rounding of a division and the text of a number are those of
IEEE doubles. A double is modelled by the rational it stands for; infinities,
`NaN` and the limits of the exponent range are not modelled.
-/

/-- The integer nearest to `x`, a tie going to the even one: the rounding of
the significand of a double. -/
def roundHalfEven (x : ℚ) : ℤ :=
  let f := ⌊x⌋
  if x - f < 1 / 2 then f
  else if 1 / 2 < x - f then f + 1
  else if f % 2 = 0 then f else f + 1

/-- The double nearest to `q`: `q` rounded to 53 significant bits, ties to
even. This is the result of an arithmetic operation whose exact value is `q`. -/
def toDouble (q : ℚ) : ℚ :=
  if q = 0 then 0
  else
    let e : ℤ := Int.log 2 |q| - 52
    (roundHalfEven (q / 2 ^ e) : ℚ) * 2 ^ e

/-- The decimal number `v` reads back as the double `x`. -/
def roundsTo (x v : ℕ) : Bool := decide (toDouble (v : ℚ) = (x : ℚ))

/-- The search for the shortest decimal that reads back as the integral double
`x` of `len` digits: with `k` significant digits the two candidates are the
multiples of `10 ^ (len - k)` around `x`; the nearer one that reads back as `x`
is taken (the even one on a tie), else `k` grows. -/
def shortestFrom (x len : ℕ) : ℕ → ℕ → ℕ
  | 0, _ => x
  | fuel + 1, k =>
    let p := 10 ^ (len - k)
    let lo := x / p * p
    let hi := lo + p
    if roundsTo x lo then
      if roundsTo x hi then
        if x - lo < hi - x then lo
        else if hi - x < x - lo then hi
        else if (x / p) % 2 = 0 then lo else hi
      else lo
    else if roundsTo x hi then hi
    else shortestFrom x len fuel (k + 1)

/-- The decimal number with the fewest significant digits that reads back as
the integral double `x`. -/
def shortestDecimal (x : ℕ) : ℕ :=
  shortestFrom x (Nat.repr x).length (Nat.repr x).length 1

/-- The digits `cs` without their trailing zeros. -/
def stripZeros (cs : List Char) : List Char :=
  (cs.reverse.dropWhile (fun c => c = '0')).reverse

/-- The exponent notation of `v`: its first digit, after a point its further
significant digits if there are any, then `e+` and the decimal exponent. -/
def exponentForm (v : ℕ) : String :=
  match stripZeros (Nat.repr v).data with
  | [] => "0"
  | d :: rest =>
    String.mk (d :: (if rest = [] then [] else '.' :: rest)) ++ "e+"
      ++ Nat.repr ((Nat.repr v).length - 1)

/-- The conversion `String(m)` of a double that is a natural number: the
decimal digits of `m` below 2^53, where every integer is a double and no
shorter decimal reads back as it; from there on the shortest decimal that reads
back as `m`, written out in full below 10^21 and in exponent notation from
10^21 on. -/
def numberToString (m : ℕ) : String :=
  if m < 2 ^ 53 then Nat.repr m
  else
    let v := shortestDecimal m
    if v < 10 ^ 21 then Nat.repr v else exponentForm v

/-- The function `formatDuration` (lines 109-115); the two divisions are
rounded to doubles, `Math.round`, `Math.floor` and `%` are exact. -/
def formatDuration (ms : ℚ) : String :=
  let totalSec : ℕ := (max 0 (mathRound (toDouble (ms / 1000)))).toNat
  let m : ℕ := ⌊toDouble ((totalSec : ℚ) / 60)⌋.toNat
  let s := totalSec % 60
  let ss := padStart2 (numberToString s)
  if m ≤ 0 then ss ++ "s" else numberToString m ++ ":" ++ ss ++ " min"

/-- The function `toInt` (lines 117-121) on a numeric field of a JSON body that
may be absent: a present number is returned, anything else gives `d`. The
counts are numbers in the endpoint's interface, so the branch for numeric
strings is not reached. -/
def toInt (v : Option ℚ) (d : ℚ) : ℚ :=
  match v with
  | some n => n
  | none => d

/-! ## Files and the extension check -/

/-- The parts of a browser `File` that the component reads. -/
structure File where
  name : String
  size : ℕ
deriving DecidableEq, Repr

/-- The method `String.prototype.split(sep)` for a one-character separator: the pieces
between the occurrences of `sep`; never the empty array. -/
def split (sep : Char) : List Char → List (List Char)
  | [] => [[]]
  | c :: cs =>
    if c = sep then [] :: split sep cs
    else
      match split sep cs with
      | [] => [[c]]
      | seg :: rest => (c :: seg) :: rest

/-- The method `Array.prototype.pop` on the result of `split`: its last piece. -/
def pop (pieces : List (List Char)) : List Char := pieces.getLastD []

/-- The method `String.prototype.toLowerCase`. The check only compares the result with
`xlsx` and `xls`, and no character outside `A-Z` lower-cases to `x`, `l` or
`s`, so the ASCII mapping decides it as the Unicode one does. -/
def toLowerCase (cs : List Char) : List Char := cs.map Char.toLower

/-- The constant `ext` of `cargarExcelRM` (line 276):
`file.name.split(".").pop().toLowerCase()`. -/
def fileExt (name : String) : List Char := toLowerCase (pop (split '.' name.data))

/-- The test `["xlsx", "xls"].includes(ext)` (line 277). -/
def acceptedExt (ext : List Char) : Bool :=
  decide (ext ∈ ["xlsx".data, "xls".data])

/-! ## Notifications -/

/-- The body of the result notification (lines 341-349): the four row counts
and the lengths of the two lists. -/
structure ResultContent where
  filasLV : ℚ
  filasPV : ℚ
  filasLS : ℚ
  filasPS : ℚ
  noEncontrados : ℕ
  incidencias : ℕ
deriving DecidableEq

/-- The message object handed to `toast.current.show`. -/
structure ToastMessage where
  severity : String
  summary : String
  detail : Option String
  life : ℕ
  sticky : Bool
  className : Option String
  content : Option ResultContent
deriving DecidableEq

/-- A JavaScript error value: its `name` and its `message`. -/
structure JsError where
  name : String
  message : String
deriving DecidableEq, Repr

/-- The conversion `String(e)` of an error object (`Error.prototype.toString`). -/
def errorToString (e : JsError) : String :=
  if e.name = "" then e.message
  else if e.message = "" then e.name
  else e.name ++ ": " ++ e.message

/-- The expression `String(e?.message || e)` (line 380): the message when it is not empty,
the printed error otherwise. -/
def errorText (e : JsError) : String :=
  if e.message ≠ "" then e.message else errorToString e

/-- The parsed JSON body of a successful upload, typed as the endpoint declares
it (`ok` a boolean, the counts numbers, the two lists arrays), each field
possibly absent; the entries of the lists are only counted. -/
structure ServerResult where
  ok : Option Bool
  filasLeidasVentas : Option ℚ
  filasProcesadasVentas : Option ℚ
  filasLeidasStock : Option ℚ
  filasProcesadasStock : Option ℚ
  codigosNoEncontrados : Option (List String)
  incidencias : Option (List String)
deriving DecidableEq

/-- How the awaited part of the `try` block ends (lines 303-323): the promise
of `fetch` or of the body read rejects with `e`; the response is not `ok`,
with `msg` the text extracted from its body (lines 310-319, empty when none);
or the response is `ok` and `res.json()` yields `result`. -/
inductive TransportOutcome
  | rejected (e : JsError)
  | httpError (status : ℕ) (msg : String)
  | success (result : ServerResult)
deriving DecidableEq

/-- How the `apiFetch` of `loadVentas` ends. -/
inductive ReloadOutcome
  | loaded
  | failed (e : JsError)
deriving DecidableEq

/-- A network request issued by the component. -/
inductive Request
  | upload (file : File) (signal : ℕ)
  | ventas
deriving DecidableEq

/-! ## Component state -/

/-- Which of the two overlay timers an interval belongs to. -/
inductive TimerKind
  | countdown
  | elapsed
deriving DecidableEq, Repr

/-- The suspension point a running `cargarExcelRM` call waits at. -/
inductive JobPhase
  | uploading
  | reloading
deriving DecidableEq, Repr

/-- A suspended call of `cargarExcelRM`: its `AbortController`, its file and
the `await` it is stopped at. -/
structure Job where
  controller : ℕ
  file : File
  phase : JobPhase
deriving DecidableEq

/-- The state of the `RM` component that the upload touches, with the browser
resources it owns: live intervals, pending grace timeouts, aborted
controllers; and a record of what it sent out: the notifications on screen
(`toasts`), every notification ever shown (`shown`), the requests issued and
the number of calls of `loadVentas`. -/
structure RMState where
  loadingTemplate : Bool
  uploadRemainingMs : Option ℚ
  uploadElapsedMs : ℚ
  loadingVentas : Bool
  countdownRef : Option ℕ
  elapsedRef : Option ℕ
  abortRef : Option ℕ
  intervals : List (ℕ × TimerKind)
  pendingGrace : ℕ
  aborted : List ℕ
  nextHandle : ℕ
  toasts : List ToastMessage
  shown : List ToastMessage
  requests : List Request
  loadVentasCalls : ℕ
  jobs : List Job
deriving DecidableEq

/-- The component right after mounting: nothing in flight. Handles start at 1,
as browser timer identifiers do. -/
def initialState : RMState :=
  { loadingTemplate := false, uploadRemainingMs := none, uploadElapsedMs := 0,
    loadingVentas := false, countdownRef := none, elapsedRef := none,
    abortRef := none, intervals := [], pendingGrace := 0, aborted := [],
    nextHandle := 1, toasts := [], shown := [], requests := [],
    loadVentasCalls := 0, jobs := [] }

/-- The call `toast.current.show(t)`. -/
def toastShow (t : ToastMessage) (s : RMState) : RMState :=
  { s with toasts := s.toasts ++ [t], shown := s.shown ++ [t] }

/-- The call `toast.current.clear()`. -/
def toastClear (s : RMState) : RMState := { s with toasts := [] }

/-- The helper `showToast` (lines 163-164) with its defaults for `life`. -/
def mkToast (severity summary : String) (detail : Option String) (life : ℕ) : ToastMessage :=
  { severity := severity, summary := summary, detail := detail, life := life,
    sticky := false, className := none, content := none }

/-- The helper `showInfo` (line 167). -/
def showInfo (m : String) (s : RMState) : RMState :=
  toastShow (mkToast "info" "Información" (some m) 3500) s

/-- The helper `showWarn` (line 168). -/
def showWarn (m : String) (s : RMState) : RMState :=
  toastShow (mkToast "warn" "Advertencia" (some m) 3500) s

/-- The helper `showError` (line 169). -/
def showError (m : String) (s : RMState) : RMState :=
  toastShow (mkToast "error" "Error" (some m) 9000) s

/-! ## Timers and effects -/

/-- The call `setInterval(...)`: a fresh live interval of kind `k`; returns its
handle. -/
def setInterval (k : TimerKind) (s : RMState) : ℕ × RMState :=
  (s.nextHandle,
    { s with intervals := s.intervals ++ [(s.nextHandle, k)], nextHandle := s.nextHandle + 1 })

/-- The call `clearInterval(h)`. -/
def clearInterval (h : ℕ) (s : RMState) : RMState :=
  { s with intervals := s.intervals.filter (fun p => decide (p.1 ≠ h)) }

/-- The updater of the countdown interval (line 225). -/
def countdownTick (ms : Option ℚ) : Option ℚ :=
  match ms with
  | none => none
  | some m => some (max 0 (m - 1000))

/-- The updater of the elapsed interval (line 238). -/
def elapsedTick (ms : ℚ) : ℚ := ms + 1000

/-- Clearing `countdownRef` (lines 228-231 and 386-389). -/
def stopCountdown (s : RMState) : RMState :=
  match s.countdownRef with
  | some h => { clearInterval h s with countdownRef := none }
  | none => s

/-- Clearing `elapsedRef` (lines 240-243 and 390-393). -/
def stopElapsed (s : RMState) : RMState :=
  match s.elapsedRef with
  | some h => { clearInterval h s with elapsedRef := none }
  | none => s

/-- The body of the countdown effect (lines 222-226). -/
def countdownEffect (s : RMState) : RMState :=
  match s.uploadRemainingMs with
  | none => s
  | some _ =>
    let s1 := match s.countdownRef with
      | some h => clearInterval h s
      | none => s
    let r := setInterval TimerKind.countdown s1
    { r.2 with countdownRef := some r.1 }

/-- The body of the elapsed effect (lines 236-238). -/
def elapsedEffect (s : RMState) : RMState :=
  if s.loadingTemplate then
    let s1 := match s.elapsedRef with
      | some h => clearInterval h s
      | none => s
    let r := setInterval TimerKind.elapsed s1
    { r.2 with elapsedRef := some r.1 }
  else s

/-- The render that follows a handler: each effect whose dependency differs
from its value `prev` at the previous render runs again, after the cleanup
that its previous run returned (a run that returned early returned none). -/
def commit (prev : RMState) (s : RMState) : RMState :=
  let s1 :=
    if prev.uploadRemainingMs = s.uploadRemainingMs then s
    else countdownEffect (if prev.uploadRemainingMs.isSome then stopCountdown s else s)
  if prev.loadingTemplate = s1.loadingTemplate then s1
  else elapsedEffect (if prev.loadingTemplate then stopElapsed s1 else s1)

/-! ## `cargarExcelRM`, cut at its `await`s -/

/-- The notification shown when the upload starts (lines 285-292). -/
def startToast (file : File) (estMs : ℚ) : ToastMessage :=
  { severity := "info", summary := "Cargando archivo RM",
    detail := some ("Subiendo " ++ file.name ++ ". ETA: " ++ formatDuration estMs
      ++ ". Por favor espere..."),
    life := 0, sticky := true,
    className := some "deprati-toast deprati-toast-info deprati-toast-persistent",
    content := none }

/-- The accepted branch of `cargarExcelRM` up to its first `await` (lines
279-307): the three state writes, the notification, the fresh
`AbortController` stored in `abortRef`, and the upload request. -/
def startUpload (f : File) (s : RMState) : RMState :=
  let estMs := calculateUploadTime f.size
  let s1 := { s with loadingTemplate := true, uploadElapsedMs := 0,
                     uploadRemainingMs := some estMs }
  let s2 := toastShow (startToast f estMs) s1
  let controller := s2.nextHandle
  let s3 := { s2 with nextHandle := s2.nextHandle + 1, abortRef := some controller }
  { s3 with requests := s3.requests ++ [Request.upload f controller],
            jobs := s3.jobs ++ [{ controller := controller, file := f,
                                  phase := JobPhase.uploading }] }

/-- The call `cargarExcelRM(file)` up to its first `await` (lines 275-307), followed by
the render of the state it wrote. -/
def cargarExcelRM (file : Option File) (s : RMState) : RMState :=
  match file with
  | none => showWarn "No seleccionaste ningún archivo." s
  | some f =>
    if acceptedExt (fileExt f.name) then commit s (startUpload f s)
    else showError "Tipo de archivo no soportado. Sube Excel (.xlsx o .xls)." s

/-- The error, if any, with which the awaited part of the `try` block ends:
a rejection as it is, a response that is not `ok` as
`new Error(msg || "Error HTTP " + status)` (line 320). -/
def thrownError : TransportOutcome → Option JsError
  | TransportOutcome.rejected e => some e
  | TransportOutcome.httpError status msg =>
    some { name := "Error",
           message := if msg ≠ "" then msg else "Error HTTP " ++ Nat.repr status }
  | TransportOutcome.success _ => none

/-- The notification of lines 336-374 for a parsed result. -/
def resultToast (result : ServerResult) : ToastMessage :=
  let ok : Bool := result.ok = some true
  { severity := if ok then "success" else "warn",
    summary := if ok then "Carga RM completada" else "Carga RM con incidencias",
    detail := none, life := 3500, sticky := true,
    className := some "deprati-toast deprati-toast-info",
    content := some
      { filasLV := toInt result.filasLeidasVentas 0,
        filasPV := toInt result.filasProcesadasVentas 0,
        filasLS := toInt result.filasLeidasStock 0,
        filasPS := toInt result.filasProcesadasStock 0,
        noEncontrados := (result.codigosNoEncontrados.getD []).length,
        incidencias := (result.incidencias.getD []).length } }

/-- The call `loadVentas()` up to its `await` (lines 186-190). -/
def loadVentas (s : RMState) : RMState :=
  { s with loadingVentas := true, requests := s.requests ++ [Request.ventas],
           loadVentasCalls := s.loadVentasCalls + 1 }

/-- The call `loadVentas()` after its `await` (lines 191-207); the table data it stores
is not part of this model. -/
def loadVentasDone (r : ReloadOutcome) (s : RMState) : RMState :=
  let s1 := match r with
    | ReloadOutcome.loaded => s
    | ReloadOutcome.failed e => showError (errorToString e) s
  { s1 with loadingVentas := false }

/-- The branch the `catch` block takes. -/
inductive CatchBranch
  | cancelled
  | failed (text : String)
deriving DecidableEq

/-- The test of the `catch` block (lines 379-380): `e?.name === "AbortError"`
selects the cancellation branch, anything else the failure branch with the
text `String(e?.message || e)`. -/
def catchBranch (e : JsError) : CatchBranch :=
  if e.name = "AbortError" then CatchBranch.cancelled else CatchBranch.failed (errorText e)

/-- The `catch` block (lines 377-381). -/
def catchBlock (e : JsError) (s : RMState) : RMState :=
  let s1 := toastClear s
  match catchBranch e with
  | CatchBranch.cancelled => showError "Carga cancelada o abortada." s1
  | CatchBranch.failed text => showError text s1

/-- The `finally` block (lines 381-394). -/
def finallyBlock (s : RMState) : RMState :=
  let s1 := { s with uploadRemainingMs := none, pendingGrace := s.pendingGrace + 1,
                     abortRef := none }
  stopElapsed (stopCountdown s1)

/-- The suspended call with controller `c` in phase `p`, if there is one. -/
def findJob (c : ℕ) (p : JobPhase) (s : RMState) : Option Job :=
  s.jobs.find? (fun j => decide (j.controller = c ∧ j.phase = p))

/-- The calls other than the one with controller `c`. -/
def dropJob (c : ℕ) (s : RMState) : RMState :=
  { s with jobs := s.jobs.filter (fun j => decide (j.controller ≠ c)) }

/-- Moves the call with controller `c` to the `await` of `loadVentas`. -/
def toReloading (c : ℕ) (s : RMState) : RMState :=
  { s with jobs := s.jobs.map (fun j =>
      if j.controller = c then { j with phase := JobPhase.reloading } else j) }

/-- The call with controller `c` resumes from the upload (lines 309-394): on an
error the `catch` and `finally` blocks run; on a parsed result the
notifications are replaced by the result notification and `loadVentas` is
called and awaited. -/
def transportSettles (c : ℕ) (o : TransportOutcome) (s : RMState) : RMState :=
  match findJob c JobPhase.uploading s with
  | none => s
  | some _ =>
    match o with
    | TransportOutcome.success result =>
      commit s (toReloading c (loadVentas (toastShow (resultToast result) (toastClear s))))
    | _ =>
      match thrownError o with
      | some e => commit s (dropJob c (finallyBlock (catchBlock e s)))
      | none => s

/-- The call with controller `c` resumes from `await loadVentas()` (line 376)
and runs its `finally` block. -/
def reloadSettles (c : ℕ) (r : ReloadOutcome) (s : RMState) : RMState :=
  match findJob c JobPhase.reloading s with
  | none => s
  | some _ => commit s (dropJob c (finallyBlock (loadVentasDone r s)))

/-- The callback of the interval of kind `k` with handle `h` runs, if that
interval is live. -/
def intervalFires (k : TimerKind) (h : ℕ) (s : RMState) : RMState :=
  if (h, k) ∈ s.intervals then
    match k with
    | TimerKind.countdown =>
      commit s { s with uploadRemainingMs := countdownTick s.uploadRemainingMs }
    | TimerKind.elapsed =>
      commit s { s with uploadElapsedMs := elapsedTick s.uploadElapsedMs }
  else s

/-- The interval held by `countdownRef` fires. -/
def fireCountdown (s : RMState) : RMState :=
  match s.countdownRef with
  | some h => intervalFires TimerKind.countdown h s
  | none => s

/-- The interval held by `elapsedRef` fires. -/
def fireElapsed (s : RMState) : RMState :=
  match s.elapsedRef with
  | some h => intervalFires TimerKind.elapsed h s
  | none => s

/-- A pending `setTimeout(() => setLoadingTemplate(false), 900)` (line 383)
runs. -/
def graceTimeout (s : RMState) : RMState :=
  if 0 < s.pendingGrace then
    commit s { s with pendingGrace := s.pendingGrace - 1, loadingTemplate := false }
  else s

/-- The `onClick` of the Cancelar button (lines 670-674); the button is only
rendered while `loadingTemplate` holds (line 634). Calling `abort()` on a
controller that is already aborted does nothing. -/
def cancelClick (s : RMState) : RMState :=
  if s.loadingTemplate then
    let s1 := match s.abortRef with
      | some c => { s with aborted := if c ∈ s.aborted then s.aborted else c :: s.aborted }
      | none => s
    showInfo "Carga cancelada por el usuario" (toastClear s1)
  else s

/-- What can happen to the component. -/
inductive Event
  | selectFile (file : Option File)
  | transport (c : ℕ) (o : TransportOutcome)
  | reload (c : ℕ) (r : ReloadOutcome)
  | interval (k : TimerKind) (h : ℕ)
  | grace
  | cancel
deriving DecidableEq

/-- One turn of the event loop. -/
def step (s : RMState) : Event → RMState
  | Event.selectFile file => cargarExcelRM file s
  | Event.transport c o => transportSettles c o s
  | Event.reload c r => reloadSettles c r s
  | Event.interval k h => intervalFires k h s
  | Event.grace => graceTimeout s
  | Event.cancel => cancelClick s

/-- A sequence of turns. -/
def run (s : RMState) (evs : List Event) : RMState := evs.foldl step s

/-- Events of the environment of a call: timer callbacks, the grace timeout
and clicks on the Cancelar button. -/
def Event.isEnv : Event → Bool
  | Event.interval _ _ => true
  | Event.grace => true
  | Event.cancel => true
  | _ => false

/-- The event starts a new upload: a call of `cargarExcelRM` with a file that
passes the extension check. -/
def Event.startsJob : Event → Bool
  | Event.selectFile (some f) => acceptedExt (fileExt f.name)
  | _ => false

/-- The `finally` block of some call runs in the turn for `ev` from `s`: the
upload of a waiting call ends with an error, or its reload ends. -/
def runsFinally (s : RMState) : Event → Bool
  | Event.transport c o =>
    (findJob c JobPhase.uploading s).isSome && (thrownError o).isSome
  | Event.reload c _ => (findJob c JobPhase.reloading s).isSome
  | _ => false

/-- Every live interval is the one its reference holds. -/
def TimersOwned (s : RMState) : Prop :=
  ∀ p ∈ s.intervals,
    (p.2 = TimerKind.countdown ∧ s.countdownRef = some p.1)
      ∨ (p.2 = TimerKind.elapsed ∧ s.elapsedRef = some p.1)

/-- The states the component can be in: those a sequence of turns leads to
from the initial state. -/
def Reachable (s : RMState) : Prop := ∃ evs, s = run initialState evs

/-- The fields of the state that no timer operation writes: `t` agrees with
`s` on everything but the interval references, the live intervals and the next
free handle. -/
structure TimerFrame (s t : RMState) : Prop where
  loadingTemplate : t.loadingTemplate = s.loadingTemplate
  uploadRemainingMs : t.uploadRemainingMs = s.uploadRemainingMs
  uploadElapsedMs : t.uploadElapsedMs = s.uploadElapsedMs
  loadingVentas : t.loadingVentas = s.loadingVentas
  abortRef : t.abortRef = s.abortRef
  pendingGrace : t.pendingGrace = s.pendingGrace
  aborted : t.aborted = s.aborted
  toasts : t.toasts = s.toasts
  shown : t.shown = s.shown
  requests : t.requests = s.requests
  loadVentasCalls : t.loadVentasCalls = s.loadVentasCalls
  jobs : t.jobs = s.jobs

/-- Both timers are stopped: no live interval, both references empty and no
remaining time on display. -/
def TimersStopped (s : RMState) : Prop :=
  s.intervals = [] ∧ s.countdownRef = none ∧ s.elapsedRef = none ∧ s.uploadRemainingMs = none

/-- The state after the upload of `ventas.xlsx` (5 MB) from the initial state
has ended with the parsed result `{ok: true, filasLeidasVentas: 120,
filasProcesadasVentas: 120}`: the call waits for `loadVentas`. -/
def uploadedAwaitingReload : RMState :=
  run initialState
    [Event.selectFile (some (File.mk "ventas.xlsx" 5242880)),
     Event.transport 1 (TransportOutcome.success
       (ServerResult.mk (some true) (some 120) (some 120) none none none none))]

/-! ## The intermediate values of the estimator -/

/-- The constant `uploadTimeMs` of `calculateUploadTime` (line 103): the raw
transfer time at 0.5 MB/s. -/
def uploadTimeMs (fileSize : ℚ) : ℚ := (fileSize / (1024 * 1024) / 0.5) * 1000

/-- The constant `processingTimeMs` of `calculateUploadTime` (line 104). -/
def processingTimeMs (fileSize : ℚ) : ℚ := 10000 + (fileSize / (1024 * 1024) * 1000)

/-- The constant `totalEstimatedTime` of `calculateUploadTime` (line 105):
the value before the clamp. -/
def totalEstimatedTime (fileSize : ℚ) : ℚ :=
  (uploadTimeMs fileSize + processingTimeMs fileSize) * 1.5

/-! ## Responses that are not `ok` -/

/-- The parsed JSON body of a response that is not `ok`, as far as the code
reads it: the fields `error` and `message`, and `JSON.stringify` of the whole
body. -/
structure ErrorJson where
  error : Option String
  message : Option String
  stringified : String
deriving DecidableEq

/-- What the code reads of a response that is not `ok`: its status, its
`Content-Type` header, and what `res.json()` and `res.text()` yield (`none`
when the read throws). -/
structure ErrorResponse where
  status : ℕ
  contentType : Option String
  json : Option ErrorJson
  text : Option String
deriving DecidableEq

/-- The method `String.prototype.includes`. -/
def includes (s sub : String) : Bool := decide (sub.data <:+: s.data)

/-- The operator `||` on a string that may be absent and a fallback: the first
operand when it is a non-empty string, the fallback otherwise. -/
def orElse (a : Option String) (b : String) : String :=
  match a with
  | some x => if x ≠ "" then x else b
  | none => b

/-- The text `msg` read from the body of a response that is not `ok` (lines
53-63 of `apiFetch`, and the same statements at lines 310-319 of
`cargarExcelRM`): `j?.error || j?.message || JSON.stringify(j)` for a JSON
body, the raw text otherwise, and the empty string when the read throws. -/
def errorDetail (res : ErrorResponse) : String :=
  let ct := res.contentType.getD ""
  if includes ct "application/json" then
    match res.json with
    | some j => orElse j.error (orElse j.message j.stringified)
    | none => ""
  else
    match res.text with
    | some t => t
    | none => ""

/-- The constant `base` of `apiFetch` (lines 64-71). -/
def apiFetchBase (status : ℕ) : String :=
  if status = 404 then "No encontrado (404): endpoint inexistente."
  else if status = 422 then "Datos inválidos (422)."
  else if 500 ≤ status then "Error del servidor (" ++ Nat.repr status ++ ")"
  else "Error HTTP (" ++ Nat.repr status ++ ")"

/-- The message of the error thrown by `apiFetch` (line 72):
`[base, msg && "Detalle: " + msg].filter(Boolean).join(" | ")`. -/
def apiFetchMessage (status : ℕ) (msg : String) : String :=
  " | ".intercalate
    ([apiFetchBase status, if msg = "" then msg else "Detalle: " ++ msg].filter
      (fun part => decide (part ≠ "")))

/-- The error `apiFetch` throws for a response that is not `ok` (lines 52-73). -/
def apiFetchError (res : ErrorResponse) : JsError :=
  { name := "Error", message := apiFetchMessage res.status (errorDetail res) }

/-- The way the awaited part of the `try` block of `cargarExcelRM` ends for a
response that is not `ok` (lines 309-321). -/
def httpErrorOf (res : ErrorResponse) : TransportOutcome :=
  TransportOutcome.httpError res.status (errorDetail res)

/-- A 404 response with the JSON body `{"error": "Ruta no encontrada"}`. -/
def notFoundResponse : ErrorResponse :=
  { status := 404, contentType := some "application/json",
    json := some { error := some "Ruta no encontrada", message := none,
                   stringified := "\x7b\"error\":\"Ruta no encontrada\"\x7d" },
    text := none }

/-- The state while `ventas.xlsx` (5 MB) is uploading from the initial state. -/
def uploadingVentas : RMState :=
  cargarExcelRM (some (File.mk "ventas.xlsx" 5242880)) initialState

/-- The notification of the Cancelar button. -/
def cancelInfoToast : ToastMessage :=
  mkToast "info" "Información" (some "Carga cancelada por el usuario") 3500

/-- The notification of the cancellation branch of the `catch` block. -/
def cancelledToast : ToastMessage :=
  mkToast "error" "Error" (some "Carga cancelada o abortada.") 9000

/-- The text of the notification of the `catch` block (lines 379-380). -/
def catchText (e : JsError) : String :=
  match catchBranch e with
  | CatchBranch.cancelled => "Carga cancelada o abortada."
  | CatchBranch.failed text => text

/-! ## The file name of a `Content-Disposition` header -/

/-- A literal of the pattern matched at the front of the input, letters
compared without regard to case (flag `i`, which on these ASCII literals only
identifies `A-Z` with `a-z`); the result is the rest of the input. -/
def matchLiteral : List Char → List Char → Option (List Char)
  | [], cs => some cs
  | _ :: _, [] => none
  | l :: ls, c :: cs => if c.toLower = l.toLower then matchLiteral ls cs else none

/-- A greedy `[...]+` at the end of an alternative: the longest prefix of
characters of the class, which must not be empty. -/
def matchClass (p : Char → Bool) (cs : List Char) : Option (List Char) :=
  let v := cs.takeWhile p
  if v = [] then none else some v

/-- The first alternative of the pattern of line 33, `filename\*=UTF-8''([^;\n]+)`,
matched at the front of the input: its group 1. -/
def matchStar (cs : List Char) : Option (List Char) :=
  match matchLiteral "filename*=UTF-8''".data cs with
  | some rest => matchClass (fun c => decide (c ≠ ';' ∧ c ≠ '\n')) rest
  | none => none

/-- The second alternative of the pattern of line 33,
`filename=\"?([^\";\n]+)\"?`, matched at the front of the input: its group 2.
The optional opening quote is taken when present, and given back when the group
cannot match after it. -/
def matchPlain (cs : List Char) : Option (List Char) :=
  match matchLiteral "filename=".data cs with
  | some rest =>
    match rest with
    | '"' :: rest1 =>
      match matchClass (fun c => decide (c ≠ '"' ∧ c ≠ ';' ∧ c ≠ '\n')) rest1 with
      | some v => some v
      | none => matchClass (fun c => decide (c ≠ '"' ∧ c ≠ ';' ∧ c ≠ '\n')) rest
    | _ => matchClass (fun c => decide (c ≠ '"' ∧ c ≠ ';' ∧ c ≠ '\n')) rest
  | none => none

/-- The call `exec(cd)` of the pattern of line 33, reduced to `m[1] || m[2]`:
the match starts at the leftmost position where one of the two alternatives
matches, the first alternative being tried first at each position. -/
def execFilename : List Char → Option (List Char)
  | [] => none
  | c :: cs =>
    match matchStar (c :: cs) with
    | some v => some v
    | none =>
      match matchPlain (c :: cs) with
      | some v => some v
      | none => execFilename cs

/-- The white space and line terminators that `String.prototype.trim`
removes. -/
def isWhiteSpace (c : Char) : Bool :=
  decide (c.toNat ∈ [9, 10, 11, 12, 13, 32, 160, 5760, 8192, 8193, 8194, 8195, 8196, 8197,
    8198, 8199, 8200, 8201, 8202, 8232, 8233, 8239, 8287, 12288, 65279])

/-- The method `String.prototype.trim`. -/
def trim (cs : List Char) : List Char :=
  ((cs.dropWhile isWhiteSpace).reverse.dropWhile isWhiteSpace).reverse

/-- The function `getFilenameFromCD` (lines 31-36). The built-in
`decodeURIComponent`, which throws on a malformed escape, is a parameter. -/
def getFilenameFromCD (decodeURIComponent : String → Except JsError String)
    (cd : Option String) : Except JsError (Option String) :=
  match cd with
  | none => Except.ok none
  | some header =>
    if header = "" then Except.ok none
    else
      match execFilename header.data with
      | some v => (decodeURIComponent (String.mk (trim v))).map some
      | none => Except.ok none

/-- A header that gives the plain parameter first and the RFC 5987 one after
it, the order in which servers usually send the two. -/
def plainThenStarHeader : String :=
  "attachment; filename=\"a.txt\"; filename*=UTF-8''b.txt"

/-! ## The parts of a formatted duration -/

/-- The two decimal digits of a number below 100, with a leading zero. -/
def twoDigits (n : ℕ) : String := String.mk [Nat.digitChar (n / 10), Nat.digitChar (n % 10)]

/-- The constant `totalSec` of `formatDuration` (line 110). -/
def totalSec (ms : ℚ) : ℕ := (max 0 (mathRound (toDouble (ms / 1000)))).toNat

/-- The number of seconds `t` of an integer `ms` as the specification words
it, in exact arithmetic: the maximum of 0 and `ms / 1000` rounded to the nearest
integer, halves up. -/
def specSeconds (ms : ℤ) : ℕ := (max 0 ⌊(ms : ℚ) / 1000 + 1 / 2⌋).toNat

/-- The text for `t` seconds as the specification words it: the two-digit
zero-padded `t` followed by `s` below 60, and otherwise the minutes `t / 60` in
decimal digits, a colon, the two-digit zero-padded `t % 60` and ` min`. -/
def formatSeconds (t : ℕ) : String :=
  if t < 60 then twoDigits t ++ "s"
  else Nat.repr (t / 60) ++ ":" ++ twoDigits (t % 60) ++ " min"

/-- The double nearest to 6 * 10^25, an integer number of milliseconds. -/
def largeDuration : ℤ := 60000000000000001140850688

/-- The value of a decimal digit. -/
def digitValue (c : Char) : ℕ := c.toNat - 48

/-- The number that a sequence of decimal digits writes. -/
def decimalValue (cs : List Char) : ℕ := cs.foldl (fun acc c => 10 * acc + digitValue c) 0

/-! # Theorems -/

/-- The value of `totalEstimatedTime` before the clamp, in closed form. -/
theorem calculateUploadTime_eq (fileSize : ℚ) :
    calculateUploadTime fileSize
      = min (max (15000 + 4500 * fileSize / 1048576) 15000) 900000 := by
  unfold calculateUploadTime
  have h : (fileSize / (1024 * 1024) / (0.5 : ℚ) * 1000
      + (10000 + fileSize / (1024 * 1024) * 1000)) * 1.5
      = 15000 + 4500 * fileSize / 1048576 := by
    norm_num
    ring
  simp only [h]

/-- C1: for every file size `sizeBytes ≥ 0`, `calculateUploadTime sizeBytes`
lies in the closed interval [15000, 900000]. -/
theorem calculateUploadTime_bounds (sizeBytes : ℚ) (h : 0 ≤ sizeBytes) :
    15000 ≤ calculateUploadTime sizeBytes ∧ calculateUploadTime sizeBytes ≤ 900000 := by
  have _ := h
  rw [calculateUploadTime_eq]
  exact ⟨le_min (le_max_right _ _) (by norm_num), min_le_right _ _⟩

/-- The bounds of C1 at a file of 5 MB. -/
theorem calculateUploadTime_bounds_witness :
    (0 : ℚ) ≤ 5242880 ∧ 15000 ≤ calculateUploadTime 5242880
      ∧ calculateUploadTime 5242880 ≤ 900000 :=
  ⟨by norm_num, calculateUploadTime_bounds 5242880 (by norm_num)⟩

/-- C2: for every `sizeBytes`, `calculateUploadTime sizeBytes` equals the
reference definition of the specification (`estimateSpec`): transfer at
0.5 MB/s plus processing 10000 + 1000 per MB, times 1.5, clamped to
[15000, 900000], over exact rational arithmetic. -/
theorem calculateUploadTime_eq_estimateSpec (sizeBytes : ℚ) :
    calculateUploadTime sizeBytes = estimateSpec sizeBytes := by
  rw [calculateUploadTime_eq]
  have h : (sizeBytes / 1048576 / (1 / 2) * 1000 + (10000 + 1000 * (sizeBytes / 1048576)))
      * (3 / 2) = 15000 + 4500 * sizeBytes / 1048576 := by ring
  simp only [estimateSpec, h, clampTo]
  split_ifs with h1 h2
  · rw [max_eq_right h1.le, min_eq_left (by norm_num)]
  · rw [max_eq_left (not_lt.mp h1), min_eq_right h2.le]
  · rw [max_eq_left (not_lt.mp h1), min_eq_left (not_lt.mp h2)]

/-- C3: `calculateUploadTime` is monotonically non-decreasing in the file
size: for all `0 ≤ a ≤ b`, `calculateUploadTime a ≤ calculateUploadTime b`. -/
theorem calculateUploadTime_mono (a b : ℚ) (ha : 0 ≤ a) (hab : a ≤ b) :
    calculateUploadTime a ≤ calculateUploadTime b := by
  have _ := ha
  rw [calculateUploadTime_eq, calculateUploadTime_eq]
  have h : 15000 + 4500 * a / 1048576 ≤ 15000 + 4500 * b / 1048576 := by linarith
  exact min_le_min (max_le_max h le_rfl) le_rfl

/-- The monotonicity of C3 between a file of 1 MB and one of 10 MB. -/
theorem calculateUploadTime_mono_witness :
    (0 : ℚ) ≤ 1048576 ∧ (1048576 : ℚ) ≤ 10485760
      ∧ calculateUploadTime 1048576 ≤ calculateUploadTime 10485760 :=
  ⟨by norm_num, by norm_num, calculateUploadTime_mono 1048576 10485760 (by norm_num) (by norm_num)⟩

/-! ## What the timer operations leave alone -/

theorem TimerFrame.refl (s : RMState) : TimerFrame s s :=
  ⟨rfl, rfl, rfl, rfl, rfl, rfl, rfl, rfl, rfl, rfl, rfl, rfl⟩

theorem TimerFrame.trans {s t u : RMState} (h1 : TimerFrame s t) (h2 : TimerFrame t u) :
    TimerFrame s u :=
  ⟨h2.1.trans h1.1, h2.2.trans h1.2, h2.3.trans h1.3, h2.4.trans h1.4, h2.5.trans h1.5,
    h2.6.trans h1.6, h2.7.trans h1.7, h2.8.trans h1.8, h2.9.trans h1.9, h2.10.trans h1.10,
    h2.11.trans h1.11, h2.12.trans h1.12⟩

theorem stopCountdown_frame (s : RMState) : TimerFrame s (stopCountdown s) := by
  unfold stopCountdown
  split <;> exact ⟨rfl, rfl, rfl, rfl, rfl, rfl, rfl, rfl, rfl, rfl, rfl, rfl⟩

theorem stopElapsed_frame (s : RMState) : TimerFrame s (stopElapsed s) := by
  unfold stopElapsed
  split <;> exact ⟨rfl, rfl, rfl, rfl, rfl, rfl, rfl, rfl, rfl, rfl, rfl, rfl⟩

theorem countdownEffect_frame (s : RMState) : TimerFrame s (countdownEffect s) := by
  unfold countdownEffect
  split
  · exact TimerFrame.refl s
  · cases s.countdownRef <;> exact ⟨rfl, rfl, rfl, rfl, rfl, rfl, rfl, rfl, rfl, rfl, rfl, rfl⟩

theorem elapsedEffect_frame (s : RMState) : TimerFrame s (elapsedEffect s) := by
  unfold elapsedEffect
  split
  · cases s.elapsedRef <;> exact ⟨rfl, rfl, rfl, rfl, rfl, rfl, rfl, rfl, rfl, rfl, rfl, rfl⟩
  · exact TimerFrame.refl s

theorem timerFrame_ite {c : Prop} [Decidable c] {s a b : RMState}
    (ha : TimerFrame s a) (hb : TimerFrame s b) : TimerFrame s (if c then a else b) := by
  split_ifs
  · exact ha
  · exact hb

theorem commit_frame (prev s : RMState) : TimerFrame s (commit prev s) := by
  unfold commit
  dsimp only
  exact (timerFrame_ite (TimerFrame.refl s)
      ((timerFrame_ite (stopCountdown_frame s) (TimerFrame.refl s)).trans
        (countdownEffect_frame _))).trans
    (timerFrame_ite (TimerFrame.refl _)
      ((timerFrame_ite (stopElapsed_frame _) (TimerFrame.refl _)).trans
        (elapsedEffect_frame _)))

/-! ## The extension check -/

theorem split_cons (sep c : Char) (cs : List Char) :
    split sep (c :: cs) =
      if c = sep then [] :: split sep cs
      else
        match split sep cs with
        | [] => [[c]]
        | seg :: rest => (c :: seg) :: rest := rfl

theorem split_ne_nil (sep : Char) (cs : List Char) : split sep cs ≠ [] := by
  cases cs with
  | nil => simp [split]
  | cons c cs =>
    rw [split_cons]
    split_ifs
    · simp
    · split <;> simp

theorem pop_cons_of_ne_nil (a : List Char) (l : List (List Char)) (h : l ≠ []) :
    pop (a :: l) = pop l := by
  cases l with
  | nil => exact absurd rfl h
  | cons b l => simp [pop]

theorem split_of_not_mem (sep : Char) (cs : List Char) (h : sep ∉ cs) :
    split sep cs = [cs] := by
  induction cs with
  | nil => rfl
  | cons c cs ih =>
    have hc : ¬ c = sep := fun e => h (e ▸ List.mem_cons_self _ _)
    have hcs : sep ∉ cs := fun m => h (List.mem_cons_of_mem _ m)
    rw [split_cons]
    rw [if_neg hc, ih hcs]

theorem split_two_of_mem (sep : Char) (cs : List Char) (h : sep ∈ cs) :
    ∃ a b rest, split sep cs = a :: b :: rest := by
  induction cs with
  | nil => simp at h
  | cons c cs ih =>
    rw [split_cons]
    by_cases hc : c = sep
    · rw [if_pos hc]
      cases hs : split sep cs with
      | nil => exact absurd hs (split_ne_nil sep cs)
      | cons b rest => exact ⟨[], b, rest, rfl⟩
    · rw [if_neg hc]
      have hcs : sep ∈ cs := by
        rcases List.mem_cons.mp h with e | m
        · exact absurd e.symm hc
        · exact m
      obtain ⟨a, b, rest, hs⟩ := ih hcs
      rw [hs]
      exact ⟨c :: a, b, rest, rfl⟩

theorem pop_split_cons_of_mem (sep c : Char) (cs : List Char) (h : sep ∈ cs) :
    pop (split sep (c :: cs)) = pop (split sep cs) := by
  obtain ⟨a, b, rest, hs⟩ := split_two_of_mem sep cs h
  rw [split_cons]
  by_cases hc : c = sep
  · rw [if_pos hc]
    exact pop_cons_of_ne_nil _ _ (split_ne_nil sep cs)
  · rw [if_neg hc, hs]
    simp [pop]

/-- The last piece of `split` is what follows the last separator. -/
theorem pop_split_decomp (sep : Char) (cs : List Char) (h : sep ∈ cs) :
    ∃ pre, cs = pre ++ sep :: pop (split sep cs) ∧ sep ∉ pop (split sep cs) := by
  induction cs with
  | nil => simp at h
  | cons c cs ih =>
    by_cases hcs : sep ∈ cs
    · obtain ⟨pre, hpre, hno⟩ := ih hcs
      rw [pop_split_cons_of_mem sep c cs hcs]
      refine ⟨c :: pre, ?_, hno⟩
      rw [List.cons_append, ← hpre]
    · have hc : c = sep := by
        rcases List.mem_cons.mp h with e | m
        · exact e.symm
        · exact absurd m hcs
      have hp : pop (split sep (c :: cs)) = cs := by
        rw [split_cons]
        rw [if_pos hc, pop_cons_of_ne_nil _ _ (split_ne_nil sep cs), split_of_not_mem sep cs hcs]
        rfl
      rw [hp]
      exact ⟨[], by simp [hc], hcs⟩

theorem pop_split_append (sep : Char) (stem e : List Char) (h : sep ∉ e) :
    pop (split sep (stem ++ sep :: e)) = e := by
  induction stem with
  | nil =>
    rw [List.nil_append]
    rw [split_cons]
    rw [if_pos rfl, pop_cons_of_ne_nil _ _ (split_ne_nil sep e), split_of_not_mem sep e h]
    rfl
  | cons c stem ih =>
    rw [List.cons_append, pop_split_cons_of_mem sep c _ (by simp), ih]

/-- A piece that lower-cases to `xlsx` or `xls` holds no dot. -/
theorem dot_not_mem_of_lower (e : List Char)
    (h : toLowerCase e = "xlsx".data ∨ toLowerCase e = "xls".data) : '.' ∉ e := by
  intro hm
  have h1 : Char.toLower '.' ∈ toLowerCase e := List.mem_map_of_mem _ hm
  rcases h with h | h <;> rw [h] at h1 <;> revert h1 <;> decide

/-- For a name with a dot, the check of line 277 passes exactly when the name
ends in a dot followed by `xlsx` or `xls` in any letter case. -/
theorem acceptedExt_iff (name : String) (hdot : '.' ∈ name.data) :
    acceptedExt (fileExt name) = true ↔
      ∃ stem e, name.data = stem ++ '.' :: e
        ∧ (toLowerCase e = "xlsx".data ∨ toLowerCase e = "xls".data) := by
  simp only [acceptedExt, fileExt, decide_eq_true_eq, List.mem_cons, List.mem_singleton,
    List.not_mem_nil, or_false]
  constructor
  · intro h
    obtain ⟨pre, hpre, _⟩ := pop_split_decomp '.' name.data hdot
    exact ⟨pre, _, hpre, h⟩
  · rintro ⟨stem, e, hname, he⟩
    rw [hname, pop_split_append '.' stem e (dot_not_mem_of_lower e he)]
    exact he

/-- C4, as stated, fails: the name `VENTAS.XLSX` ends neither in `.xlsx` nor in
`.xls`, and `cargarExcelRM` enters the uploading state and issues the upload
request for it. -/
theorem cargarExcelRM_upper_case_accepted :
    ¬ (".xlsx".data <:+ "VENTAS.XLSX".data ∨ ".xls".data <:+ "VENTAS.XLSX".data)
      ∧ (cargarExcelRM (some ⟨"VENTAS.XLSX", 1024⟩) initialState).loadingTemplate = true
      ∧ (cargarExcelRM (some ⟨"VENTAS.XLSX", 1024⟩) initialState).requests
          = [Request.upload ⟨"VENTAS.XLSX", 1024⟩ 1] := by
  decide

/-- C4, amended: for an input whose name (if a file is given) contains a dot,
`cargarExcelRM` enters the uploading state and issues the upload request if and
only if a file is given and its name ends in a dot followed by `xlsx` or `xls`
in any letter case; then the request carries the file, the remaining time is
seeded with the estimate and the elapsed time is 0. For every other such input
it only shows a warning or error notification: no request, no timer, no change
of `loadingTemplate`, `uploadRemainingMs` or `uploadElapsedMs`. -/
theorem cargarExcelRM_validation (s : RMState) (file : Option File)
    (hdot : ∀ f, file = some f → '.' ∈ f.name.data) :
    (((cargarExcelRM file s).loadingTemplate = true
        ∧ (cargarExcelRM file s).requests ≠ s.requests) ↔
      ∃ f stem e, file = some f ∧ f.name.data = stem ++ '.' :: e
        ∧ (toLowerCase e = "xlsx".data ∨ toLowerCase e = "xls".data))
    ∧ (∀ f stem e, file = some f → f.name.data = stem ++ '.' :: e →
        (toLowerCase e = "xlsx".data ∨ toLowerCase e = "xls".data) →
        (cargarExcelRM file s).requests = s.requests ++ [Request.upload f s.nextHandle]
          ∧ (cargarExcelRM file s).uploadRemainingMs = some (calculateUploadTime f.size)
          ∧ (cargarExcelRM file s).uploadElapsedMs = 0)
    ∧ ((¬ ∃ f stem e, file = some f ∧ f.name.data = stem ++ '.' :: e
          ∧ (toLowerCase e = "xlsx".data ∨ toLowerCase e = "xls".data)) →
        ∃ t, (t.severity = "warn" ∨ t.severity = "error")
          ∧ cargarExcelRM file s = toastShow t s) := by
  cases file with
  | none =>
    refine ⟨⟨fun h => absurd rfl h.2, ?_⟩, ?_, ?_⟩
    · rintro ⟨f, _, _, hf, _⟩
      cases hf
    · intro f _ _ hf
      cases hf
    · intro _
      exact ⟨_, Or.inl rfl, rfl⟩
  | some f =>
    have hiff := acceptedExt_iff f.name (hdot f rfl)
    by_cases hacc : acceptedExt (fileExt f.name) = true
    · obtain ⟨stem, e, hname, he⟩ := hiff.mp hacc
      have hrun : cargarExcelRM (some f) s = commit s (startUpload f s) := by
        simp only [cargarExcelRM, hacc, if_true]
      have hfr : TimerFrame (startUpload f s) (cargarExcelRM (some f) s) := by
        rw [hrun]
        exact commit_frame _ _
      refine ⟨⟨fun _ => ⟨f, stem, e, rfl, hname, he⟩, fun _ => ⟨hfr.loadingTemplate, ?_⟩⟩, ?_, ?_⟩
      · rw [hfr.requests]
        simp [startUpload, toastShow]
      · intro f' _ _ hf' _ _
        cases hf'
        exact ⟨hfr.requests, hfr.uploadRemainingMs, hfr.uploadElapsedMs⟩
      · intro hno
        exact absurd ⟨f, stem, e, rfl, hname, he⟩ hno
    · have hrun : cargarExcelRM (some f) s
          = showError "Tipo de archivo no soportado. Sube Excel (.xlsx o .xls)." s := by
        simp only [cargarExcelRM, hacc]
        rfl
      have hno : ¬ ∃ f' stem e, some f = some f' ∧ f'.name.data = stem ++ '.' :: e
          ∧ (toLowerCase e = "xlsx".data ∨ toLowerCase e = "xls".data) := by
        rintro ⟨f', stem, e, hf', hname, he⟩
        cases hf'
        exact hacc (hiff.mpr ⟨stem, e, hname, he⟩)
      refine ⟨⟨fun h => ?_, fun h => absurd h hno⟩, ?_, ?_⟩
      · rw [hrun] at h
        exact absurd rfl h.2
      · intro f' stem e hf' hname he
        exact absurd ⟨f', stem, e, hf', hname, he⟩ hno
      · intro _
        exact ⟨_, Or.inr rfl, hrun⟩

/-- The validation of C4 at the file `ventas.xlsx` from the initial state. -/
theorem cargarExcelRM_validation_witness :
    (∀ f, some (File.mk "ventas.xlsx" 5242880) = some f → '.' ∈ f.name.data)
      ∧ (cargarExcelRM (some (File.mk "ventas.xlsx" 5242880)) initialState).requests
          = initialState.requests ++ [Request.upload (File.mk "ventas.xlsx" 5242880) 1] :=
  ⟨by intro f hf; cases hf; decide,
    ((cargarExcelRM_validation initialState (some (File.mk "ventas.xlsx" 5242880))
      (by intro f hf; cases hf; decide)).2.1 _ "ventas".data "xlsx".data rfl
        (by decide) (by decide)).1⟩

/-! ## How a call resumes from the upload -/

theorem transportSettles_success (s : RMState) (c : ℕ) (result : ServerResult)
    (hjob : (findJob c JobPhase.uploading s).isSome = true) :
    transportSettles c (TransportOutcome.success result) s
      = commit s (toReloading c (loadVentas (toastShow (resultToast result) (toastClear s)))) := by
  obtain ⟨j, hj⟩ := Option.isSome_iff_exists.mp hjob
  simp only [transportSettles, hj]

theorem transportSettles_error (s : RMState) (c : ℕ) (o : TransportOutcome) (e : JsError)
    (hjob : (findJob c JobPhase.uploading s).isSome = true) (he : thrownError o = some e) :
    transportSettles c o s = commit s (dropJob c (finallyBlock (catchBlock e s))) := by
  obtain ⟨j, hj⟩ := Option.isSome_iff_exists.mp hjob
  cases o with
  | success result => simp [thrownError] at he
  | rejected e' => simp only [transportSettles, hj, he]
  | httpError status msg => simp only [transportSettles, hj, he]

theorem transportSettles_idle (s : RMState) (c : ℕ) (o : TransportOutcome)
    (hjob : findJob c JobPhase.uploading s = none) : transportSettles c o s = s := by
  simp only [transportSettles, hjob]

theorem reloadSettles_running (s : RMState) (c : ℕ) (r : ReloadOutcome)
    (hjob : (findJob c JobPhase.reloading s).isSome = true) :
    reloadSettles c r s = commit s (dropJob c (finallyBlock (loadVentasDone r s))) := by
  obtain ⟨j, hj⟩ := Option.isSome_iff_exists.mp hjob
  simp only [reloadSettles, hj]

theorem reloadSettles_idle (s : RMState) (c : ℕ) (r : ReloadOutcome)
    (hjob : findJob c JobPhase.reloading s = none) : reloadSettles c r s = s := by
  simp only [reloadSettles, hjob]

theorem finallyBlock_frame (s : RMState) :
    TimerFrame { s with uploadRemainingMs := none, pendingGrace := s.pendingGrace + 1,
                        abortRef := none } (finallyBlock s) := by
  unfold finallyBlock
  exact (stopCountdown_frame _).trans (stopElapsed_frame _)

/-- C5: for every server result parsed after an HTTP-success upload, the call
shows the success notification "Carga RM completada" exactly when the result's
`ok` flag is true and the warning notification "Carga RM con incidencias"
otherwise; severity and summary depend only on `ok`, not on `incidencias` or
`codigosNoEncontrados`. -/
theorem transportSettles_success_classified (s : RMState) (c : ℕ) (result : ServerResult)
    (hjob : (findJob c JobPhase.uploading s).isSome = true) :
    (transportSettles c (TransportOutcome.success result) s).shown
        = s.shown ++ [resultToast result]
      ∧ (transportSettles c (TransportOutcome.success result) s).toasts = [resultToast result]
      ∧ (((resultToast result).severity = "success"
            ∧ (resultToast result).summary = "Carga RM completada") ↔ result.ok = some true)
      ∧ (((resultToast result).severity = "warn"
            ∧ (resultToast result).summary = "Carga RM con incidencias") ↔ result.ok ≠ some true)
      ∧ (∀ r2 : ServerResult, r2.ok = result.ok →
          (resultToast r2).severity = (resultToast result).severity
            ∧ (resultToast r2).summary = (resultToast result).summary) := by
  rw [transportSettles_success s c result hjob]
  refine ⟨(commit_frame _ _).shown, (commit_frame _ _).toasts, ?_, ?_, ?_⟩
  · by_cases hok : result.ok = some true
    · simp [resultToast, hok]
    · simp [resultToast, hok]
  · by_cases hok : result.ok = some true
    · simp [resultToast, hok]
    · simp [resultToast, hok]
  · intro r2 h2
    simp [resultToast, h2]

/-- The classification of C5 at a result with `ok` false and one incident. -/
theorem transportSettles_success_classified_witness :
    (findJob 1 JobPhase.uploading
        (cargarExcelRM (some (File.mk "ventas.xlsx" 5242880)) initialState)).isSome = true
      ∧ (resultToast (ServerResult.mk (some false) none none none none none (some ["fila 3"]))).severity
          = "warn" :=
  ⟨by decide,
    ((transportSettles_success_classified
      (cargarExcelRM (some (File.mk "ventas.xlsx" 5242880)) initialState) 1
      (ServerResult.mk (some false) none none none none none (some ["fila 3"]))
      (by decide)).2.2.2.1.mpr (by decide)).1⟩

/-- C7: for every error `e` that ends the upload of a waiting call, the
`catch` block takes the cancellation branch if and only if `e` is an
`AbortError` (the error the cancellation signal raises) and the failure branch,
carrying the error's message, otherwise; the branch does not depend on the text
of the message, and an HTTP error is never taken for a cancellation. -/
theorem transportSettles_error_classified (s : RMState) (c : ℕ) (o : TransportOutcome)
    (e : JsError) (hjob : (findJob c JobPhase.uploading s).isSome = true)
    (he : thrownError o = some e) :
    (catchBranch e = CatchBranch.cancelled ↔ e.name = "AbortError")
      ∧ (e.name ≠ "AbortError" → catchBranch e = CatchBranch.failed (errorText e))
      ∧ (e.message ≠ "" → errorText e = e.message)
      ∧ (∀ m : String, catchBranch { e with message := m } = CatchBranch.cancelled
            ↔ catchBranch e = CatchBranch.cancelled)
      ∧ (catchBranch e = CatchBranch.cancelled →
          (transportSettles c o s).shown
            = s.shown ++ [mkToast "error" "Error" (some "Carga cancelada o abortada.") 9000])
      ∧ (∀ text, catchBranch e = CatchBranch.failed text →
          (transportSettles c o s).shown
            = s.shown ++ [mkToast "error" "Error" (some text) 9000])
      ∧ (∀ status msg, o = TransportOutcome.httpError status msg →
          catchBranch e = CatchBranch.failed e.message) := by
  have hbranch : ∀ e' : JsError, catchBranch e' = CatchBranch.cancelled ↔ e'.name = "AbortError" := by
    intro e'
    unfold catchBranch
    split_ifs with h
    · exact ⟨fun _ => h, fun _ => rfl⟩
    · exact ⟨fun hc => hc.elim, fun hn => absurd hn h⟩
  have hshown : (transportSettles c o s).shown = (catchBlock e s).shown := by
    rw [transportSettles_error s c o e hjob he, (commit_frame _ _).shown]
    exact (finallyBlock_frame _).shown
  have htext : e.message ≠ "" → errorText e = e.message := by
    intro hm
    simp [errorText, hm]
  refine ⟨hbranch e, ?_, htext, ?_, ?_, ?_, ?_⟩
  · intro hn
    simp [catchBranch, hn]
  · intro m
    rw [hbranch, hbranch]
  · intro hc
    rw [hshown]
    simp only [catchBlock, hc]
    rfl
  · intro text hc
    rw [hshown]
    simp only [catchBlock, hc]
    rfl
  · intro status msg ho
    subst ho
    simp only [thrownError, Option.some.injEq] at he
    subst he
    have hne : (if msg ≠ "" then msg else "Error HTTP " ++ Nat.repr status) ≠ "" := by
      split_ifs with hm
      · exact hm
      · intro h
        have hl := congrArg String.length h
        simp only [String.length_append] at hl
        have h11 : "Error HTTP ".length = 11 := by decide
        rw [h11] at hl
        have h0 : "".length = 0 := rfl
        omega
    simp only [catchBranch, errorText]
    rw [if_neg (by decide), if_pos hne]

/-- The classification of C7 at an abort of the first upload. -/
theorem transportSettles_error_classified_witness :
    (findJob 1 JobPhase.uploading
        (cargarExcelRM (some (File.mk "ventas.xlsx" 5242880)) initialState)).isSome = true
      ∧ thrownError (TransportOutcome.rejected (JsError.mk "AbortError" "The user aborted a request."))
          = some (JsError.mk "AbortError" "The user aborted a request.")
      ∧ catchBranch (JsError.mk "AbortError" "The user aborted a request.")
          = CatchBranch.cancelled :=
  ⟨by decide, rfl,
    (transportSettles_error_classified
      (cargarExcelRM (some (File.mk "ventas.xlsx" 5242880)) initialState) 1
      (TransportOutcome.rejected (JsError.mk "AbortError" "The user aborted a request."))
      (JsError.mk "AbortError" "The user aborted a request.") (by decide) rfl).1.mpr rfl⟩

/-! ## Calls of `loadVentas` along a run -/

theorem run_append (s : RMState) (xs ys : List Event) :
    run s (xs ++ ys) = run (run s xs) ys := by
  simp [run, List.foldl_append]

theorem run_cons (s : RMState) (ev : Event) (evs : List Event) :
    run s (ev :: evs) = run (step s ev) evs := rfl

theorem intervalFires_frame (k : TimerKind) (h : ℕ) (s : RMState) :
    (intervalFires k h s).loadVentasCalls = s.loadVentasCalls
      ∧ (intervalFires k h s).jobs = s.jobs ∧ (intervalFires k h s).shown = s.shown := by
  unfold intervalFires
  split_ifs
  · cases k
    · exact ⟨(commit_frame _ _).loadVentasCalls, (commit_frame _ _).jobs, (commit_frame _ _).shown⟩
    · exact ⟨(commit_frame _ _).loadVentasCalls, (commit_frame _ _).jobs, (commit_frame _ _).shown⟩
  · exact ⟨rfl, rfl, rfl⟩

/-- Timer callbacks, the grace timeout and the Cancelar button neither call
`loadVentas` nor resume a call. -/
theorem step_env (s : RMState) (ev : Event) (hev : ev.isEnv = true) :
    (step s ev).loadVentasCalls = s.loadVentasCalls ∧ (step s ev).jobs = s.jobs := by
  cases ev with
  | selectFile file => simp [Event.isEnv] at hev
  | transport c o => simp [Event.isEnv] at hev
  | reload c r => simp [Event.isEnv] at hev
  | interval k h => exact ⟨(intervalFires_frame k h s).1, (intervalFires_frame k h s).2.1⟩
  | grace =>
    simp only [step, graceTimeout]
    split_ifs
    · exact ⟨(commit_frame _ _).loadVentasCalls, (commit_frame _ _).jobs⟩
    · exact ⟨rfl, rfl⟩
  | cancel =>
    simp only [step, cancelClick]
    split_ifs
    · cases s.abortRef <;> exact ⟨rfl, rfl⟩
    · exact ⟨rfl, rfl⟩

theorem run_env (evs : List Event) (s : RMState) (hev : ∀ ev ∈ evs, ev.isEnv = true) :
    (run s evs).loadVentasCalls = s.loadVentasCalls ∧ (run s evs).jobs = s.jobs := by
  induction evs generalizing s with
  | nil => exact ⟨rfl, rfl⟩
  | cons ev evs ih =>
    rw [run_cons]
    have h1 := step_env s ev (hev ev (List.mem_cons_self _ _))
    have h2 := ih (step s ev) (fun e he => hev e (List.mem_cons_of_mem _ he))
    exact ⟨h2.1.trans h1.1, h2.2.trans h1.2⟩

theorem findJob_congr (c : ℕ) (p : JobPhase) (s t : RMState) (h : t.jobs = s.jobs) :
    findJob c p t = findJob c p s := by
  simp only [findJob, h]

theorem cargarExcelRM_accepted (s : RMState) (f : File)
    (hacc : acceptedExt (fileExt f.name) = true) :
    cargarExcelRM (some f) s = commit s (startUpload f s) := by
  simp only [cargarExcelRM, hacc, if_true]

theorem findJob_startUpload (s : RMState) (f : File) :
    (findJob s.nextHandle JobPhase.uploading (startUpload f s)).isSome = true := by
  simp only [findJob, List.find?_isSome]
  exact ⟨{ controller := s.nextHandle, file := f, phase := JobPhase.uploading },
    by simp [startUpload, toastShow], by simp⟩

theorem findJob_toReloading (c : ℕ) (s : RMState)
    (h : (findJob c JobPhase.uploading s).isSome = true) :
    (findJob c JobPhase.reloading (toReloading c s)).isSome = true := by
  simp only [findJob, List.find?_isSome] at h ⊢
  obtain ⟨j, hj, hp⟩ := h
  simp only [decide_eq_true_eq] at hp
  refine ⟨{ j with phase := JobPhase.reloading }, ?_, by simp [hp.1]⟩
  simp only [toReloading, List.mem_map]
  exact ⟨j, hj, by simp [hp.1]⟩

theorem reloadSettles_loadVentasCalls (c : ℕ) (r : ReloadOutcome) (s : RMState) :
    (reloadSettles c r s).loadVentasCalls = s.loadVentasCalls := by
  unfold reloadSettles
  split
  · rfl
  · rw [(commit_frame _ _).loadVentasCalls]
    show (finallyBlock (loadVentasDone r s)).loadVentasCalls = s.loadVentasCalls
    rw [(finallyBlock_frame _).loadVentasCalls]
    cases r <;> rfl

theorem transportSettles_loadVentasCalls (c : ℕ) (o : TransportOutcome) (s : RMState)
    (hjob : (findJob c JobPhase.uploading s).isSome = true) :
    (transportSettles c o s).loadVentasCalls
      = s.loadVentasCalls + (if (thrownError o).isNone then 1 else 0) := by
  cases hte : thrownError o with
  | none =>
    cases o with
    | success result =>
      rw [transportSettles_success s c result hjob, (commit_frame _ _).loadVentasCalls]
      rfl
    | rejected e => simp [thrownError] at hte
    | httpError status msg => simp [thrownError] at hte
  | some e =>
    rw [transportSettles_error s c o e hjob hte, (commit_frame _ _).loadVentasCalls]
    show (finallyBlock (catchBlock e s)).loadVentasCalls = _
    rw [(finallyBlock_frame _).loadVentasCalls]
    simp only [catchBlock]
    cases catchBranch e <;> simp [showError, toastShow, toastClear]

/-- C6: in every run of `cargarExcelRM` on a file that passes validation, with
any timer callbacks, grace timeouts and clicks on Cancelar between its turns,
`loadVentas` is called exactly once if the upload ended with a parsed result
of an HTTP-success response (whatever its `ok` flag and its incidents) and not
at all if it ended with an error (cancellation or failure). -/
theorem loadVentas_once_iff_http_success (s : RMState) (f : File) (o : TransportOutcome)
    (r : ReloadOutcome) (e1 e2 e3 : List Event)
    (hacc : acceptedExt (fileExt f.name) = true)
    (h1 : ∀ ev ∈ e1, ev.isEnv = true) (h2 : ∀ ev ∈ e2, ev.isEnv = true)
    (h3 : ∀ ev ∈ e3, ev.isEnv = true) :
    (run s (Event.selectFile (some f) :: e1 ++ Event.transport s.nextHandle o :: e2
        ++ Event.reload s.nextHandle r :: e3)).loadVentasCalls
      = s.loadVentasCalls + (if (thrownError o).isNone then 1 else 0) := by
  simp only [List.append_assoc, List.cons_append, run_cons, run_append, step]
  have hstart : (cargarExcelRM (some f) s).loadVentasCalls = s.loadVentasCalls := by
    rw [cargarExcelRM_accepted s f hacc, (commit_frame _ _).loadVentasCalls]
    rfl
  have hjob0 : (findJob s.nextHandle JobPhase.uploading (cargarExcelRM (some f) s)).isSome
      = true := by
    rw [cargarExcelRM_accepted s f hacc,
      findJob_congr _ _ _ _ (commit_frame s (startUpload f s)).jobs]
    exact findJob_startUpload s f
  have hjob1 : (findJob s.nextHandle JobPhase.uploading
      (run (cargarExcelRM (some f) s) e1)).isSome = true := by
    rw [findJob_congr _ _ _ _ (run_env e1 _ h1).2]
    exact hjob0
  rw [(run_env e3 _ h3).1, reloadSettles_loadVentasCalls, (run_env e2 _ h2).1,
    transportSettles_loadVentasCalls _ _ _ hjob1, (run_env e1 _ h1).1, hstart]

/-- The count of C6 on a run with a partial failure: `ok` false with one
incident, a countdown tick before the upload ends. -/
theorem loadVentas_once_iff_http_success_witness :
    acceptedExt (fileExt (File.mk "ventas.xlsx" 5242880).name) = true
      ∧ (∀ ev ∈ [Event.interval TimerKind.countdown 2], ev.isEnv = true)
      ∧ (∀ ev ∈ ([] : List Event), ev.isEnv = true)
      ∧ (run initialState (Event.selectFile (some (File.mk "ventas.xlsx" 5242880))
          :: [Event.interval TimerKind.countdown 2]
          ++ Event.transport initialState.nextHandle (TransportOutcome.success
              (ServerResult.mk (some false) none none none none none (some ["fila 3"])))
          :: [] ++ Event.reload initialState.nextHandle ReloadOutcome.loaded :: [])).loadVentasCalls
        = initialState.loadVentasCalls + 1 :=
  ⟨by decide, by decide, by decide,
    loadVentas_once_iff_http_success initialState (File.mk "ventas.xlsx" 5242880)
      (TransportOutcome.success
        (ServerResult.mk (some false) none none none none none (some ["fila 3"])))
      ReloadOutcome.loaded [Event.interval TimerKind.countdown 2] [] []
      (by decide) (by decide) (by decide) (by decide)⟩

/-! ## The two timers -/

theorem commit_of_loadingTemplate_eq (prev s : RMState)
    (h : prev.loadingTemplate = s.loadingTemplate) :
    commit prev s = if prev.uploadRemainingMs = s.uploadRemainingMs then s
      else countdownEffect (if prev.uploadRemainingMs.isSome then stopCountdown s else s) := by
  unfold commit
  dsimp only
  rw [if_pos]
  rw [h]
  exact ((timerFrame_ite (TimerFrame.refl s)
    ((timerFrame_ite (stopCountdown_frame s) (TimerFrame.refl s)).trans
      (countdownEffect_frame _))).loadingTemplate).symm

theorem commit_of_remaining_eq (prev s : RMState)
    (h : prev.uploadRemainingMs = s.uploadRemainingMs) :
    commit prev s = if prev.loadingTemplate = s.loadingTemplate then s
      else elapsedEffect (if prev.loadingTemplate then stopElapsed s else s) := by
  unfold commit
  dsimp only
  rw [if_pos h]

theorem commit_same (prev s : RMState) (h1 : prev.uploadRemainingMs = s.uploadRemainingMs)
    (h2 : prev.loadingTemplate = s.loadingTemplate) : commit prev s = s := by
  rw [commit_of_remaining_eq prev s h1, if_pos h2]

theorem countdownEffect_live (s : RMState) (h : s.uploadRemainingMs.isSome = true) :
    ∃ h', (countdownEffect s).countdownRef = some h'
      ∧ (h', TimerKind.countdown) ∈ (countdownEffect s).intervals := by
  unfold countdownEffect
  cases hrem : s.uploadRemainingMs with
  | none => simp [hrem] at h
  | some m =>
    cases s.countdownRef <;> exact ⟨_, rfl, by simp [setInterval, clearInterval]⟩

theorem elapsedEffect_live (s : RMState) (h : s.loadingTemplate = true) :
    ∃ h', (elapsedEffect s).elapsedRef = some h'
      ∧ (h', TimerKind.elapsed) ∈ (elapsedEffect s).intervals := by
  unfold elapsedEffect
  rw [if_pos h]
  cases s.elapsedRef <;> exact ⟨_, rfl, by simp [setInterval, clearInterval]⟩

theorem countdownTick_nonneg (E : ℚ) (n : ℕ) (hE : 0 ≤ E) :
    countdownTick^[n] (some E) = some (max 0 (E - 1000 * n)) := by
  induction n with
  | zero => simp [max_eq_right hE]
  | succ n ih =>
    rw [Function.iterate_succ_apply', ih]
    simp only [countdownTick, Option.some.injEq]
    push_cast
    rcases le_total (E - 1000 * (n : ℚ)) 0 with h | h
    · rw [max_eq_left h, max_eq_left (by linarith), max_eq_left (by linarith)]
    · rw [max_eq_right h]
      congr 1
      ring

/-- A tick of the countdown interval held by `countdownRef` applies the updater
and leaves a live interval in `countdownRef`. -/
theorem fireCountdown_spec (s : RMState) (h : ℕ) (m : ℚ) (href : s.countdownRef = some h)
    (hlive : (h, TimerKind.countdown) ∈ s.intervals) (hrem : s.uploadRemainingMs = some m) :
    (fireCountdown s).uploadRemainingMs = countdownTick (some m)
      ∧ ∃ h', (fireCountdown s).countdownRef = some h'
          ∧ (h', TimerKind.countdown) ∈ (fireCountdown s).intervals := by
  have hfire : fireCountdown s
      = commit s { s with uploadRemainingMs := countdownTick s.uploadRemainingMs } := by
    simp only [fireCountdown, href, intervalFires, hlive, if_true]
  rw [hfire]
  generalize ht : ({ s with uploadRemainingMs := countdownTick s.uploadRemainingMs } : RMState) = t
  have hlt : s.loadingTemplate = t.loadingTemplate := by rw [← ht]
  have htr : t.uploadRemainingMs = countdownTick (some m) := by rw [← ht, ← hrem]
  have htc : t.countdownRef = some h := by rw [← ht]; exact href
  have hti : (h, TimerKind.countdown) ∈ t.intervals := by rw [← ht]; exact hlive
  refine ⟨by rw [(commit_frame _ _).uploadRemainingMs, htr], ?_⟩
  rw [commit_of_loadingTemplate_eq s t hlt]
  split_ifs with h1 h2
  · exact ⟨h, htc, hti⟩
  · refine countdownEffect_live _ ?_
    rw [(stopCountdown_frame _).uploadRemainingMs, htr]
    rfl
  · simp [hrem] at h2

theorem fireCountdown_iterate (n : ℕ) (s : RMState) (h : ℕ) (E : ℚ) (hE : 0 ≤ E)
    (href : s.countdownRef = some h) (hlive : (h, TimerKind.countdown) ∈ s.intervals)
    (hrem : s.uploadRemainingMs = some E) :
    (fireCountdown^[n] s).uploadRemainingMs = countdownTick^[n] (some E)
      ∧ ∃ h', (fireCountdown^[n] s).countdownRef = some h'
          ∧ (h', TimerKind.countdown) ∈ (fireCountdown^[n] s).intervals := by
  induction n with
  | zero => exact ⟨hrem, h, href, hlive⟩
  | succ n ih =>
    obtain ⟨hval, h', href', hlive'⟩ := ih
    rw [countdownTick_nonneg E n hE] at hval
    have hs := fireCountdown_spec _ h' _ href' hlive' hval
    rw [Function.iterate_succ_apply', Function.iterate_succ_apply', countdownTick_nonneg E n hE]
    exact hs

/-- C8: a tick of the remaining timer maps `ms` to `max 0 (ms - 1000)` and
leaves `null` as it is; so from a state whose countdown runs with a seeded
estimate `E ≥ 0`, the value after `n` ticks is `max 0 (E - 1000 * n)`; it is
never negative and the values never increase. -/
theorem remaining_after_ticks (s : RMState) (h : ℕ) (E : ℚ) (n : ℕ) (hE : 0 ≤ E)
    (href : s.countdownRef = some h) (hlive : (h, TimerKind.countdown) ∈ s.intervals)
    (hrem : s.uploadRemainingMs = some E) :
    countdownTick none = none
      ∧ (∀ ms : ℚ, countdownTick (some ms) = some (max 0 (ms - 1000)))
      ∧ (intervalFires TimerKind.countdown h s).uploadRemainingMs
          = countdownTick s.uploadRemainingMs
      ∧ (fireCountdown^[n] s).uploadRemainingMs = some (max 0 (E - 1000 * n))
      ∧ (0 : ℚ) ≤ max 0 (E - 1000 * n)
      ∧ ((fireCountdown^[n + 1] s).uploadRemainingMs = some (max 0 (E - 1000 * (n + 1 : ℕ)))
          ∧ max 0 (E - 1000 * ((n + 1 : ℕ) : ℚ)) ≤ max 0 (E - 1000 * n)) := by
  refine ⟨rfl, fun _ => rfl, ?_, ?_, le_max_left _ _, ?_, ?_⟩
  · simp only [intervalFires, hlive, if_true]
    exact (commit_frame _ _).uploadRemainingMs
  · rw [(fireCountdown_iterate n s h E hE href hlive hrem).1, countdownTick_nonneg E n hE]
  · rw [(fireCountdown_iterate (n + 1) s h E hE href hlive hrem).1,
      countdownTick_nonneg E (n + 1) hE]
  · push_cast
    exact max_le_max le_rfl (by linarith)

/-- The remaining time of C8 three ticks into the upload of a 5 MB file. -/
theorem remaining_after_ticks_witness :
    (0 : ℚ) ≤ calculateUploadTime ((5242880 : ℕ) : ℚ)
      ∧ (cargarExcelRM (some (File.mk "ventas.xlsx" 5242880)) initialState).countdownRef = some 2
      ∧ (fireCountdown^[3]
          (cargarExcelRM (some (File.mk "ventas.xlsx" 5242880)) initialState)).uploadRemainingMs
        = some (max 0 (calculateUploadTime ((5242880 : ℕ) : ℚ) - 1000 * ((3 : ℕ) : ℚ))) :=
  ⟨by rw [calculateUploadTime_eq]; norm_num, by decide,
    (remaining_after_ticks (cargarExcelRM (some (File.mk "ventas.xlsx" 5242880)) initialState)
      2 (calculateUploadTime ((5242880 : ℕ) : ℚ)) 3
      (by rw [calculateUploadTime_eq]; norm_num) (by decide) (by decide) rfl).2.2.2.1⟩

/-- A tick of the elapsed interval held by `elapsedRef` adds 1000 and changes
nothing else. -/
theorem fireElapsed_spec (s : RMState) (h : ℕ) (href : s.elapsedRef = some h)
    (hlive : (h, TimerKind.elapsed) ∈ s.intervals) :
    fireElapsed s = { s with uploadElapsedMs := s.uploadElapsedMs + 1000 } := by
  simp only [fireElapsed, href, intervalFires, hlive, if_true, elapsedTick]
  exact commit_same _ _ rfl rfl

theorem fireElapsed_iterate (n : ℕ) (s : RMState) (h : ℕ) (href : s.elapsedRef = some h)
    (hlive : (h, TimerKind.elapsed) ∈ s.intervals) :
    (fireElapsed^[n] s).uploadElapsedMs = s.uploadElapsedMs + 1000 * n
      ∧ (fireElapsed^[n] s).elapsedRef = some h
      ∧ (h, TimerKind.elapsed) ∈ (fireElapsed^[n] s).intervals := by
  induction n with
  | zero => exact ⟨by simp, href, hlive⟩
  | succ n ih =>
    obtain ⟨hval, href', hlive'⟩ := ih
    rw [Function.iterate_succ_apply', fireElapsed_spec _ h href' hlive']
    refine ⟨?_, href', hlive'⟩
    show (fireElapsed^[n] s).uploadElapsedMs + 1000 = _
    rw [hval]
    push_cast
    ring

/-- After an accepted call from a state whose overlay is down, `elapsedRef`
holds a live interval. -/
theorem cargarExcelRM_elapsed_live (s : RMState) (f : File)
    (hacc : acceptedExt (fileExt f.name) = true) (hidle : s.loadingTemplate = false) :
    ∃ h, (cargarExcelRM (some f) s).elapsedRef = some h
      ∧ (h, TimerKind.elapsed) ∈ (cargarExcelRM (some f) s).intervals := by
  rw [cargarExcelRM_accepted s f hacc]
  unfold commit
  dsimp only
  have hl : ∀ t : RMState, TimerFrame (startUpload f s) t → t.loadingTemplate = true :=
    fun t ht => ht.loadingTemplate
  have h1 : TimerFrame (startUpload f s)
      (if s.uploadRemainingMs = (startUpload f s).uploadRemainingMs then startUpload f s
        else countdownEffect
          (if s.uploadRemainingMs.isSome then stopCountdown (startUpload f s)
            else startUpload f s)) :=
    timerFrame_ite (TimerFrame.refl _)
      ((timerFrame_ite (stopCountdown_frame _) (TimerFrame.refl _)).trans
        (countdownEffect_frame _))
  rw [if_neg (by rw [hidle, hl _ h1]; decide), hidle]
  exact elapsedEffect_live _ (hl _ h1)

/-- C9: starting a job resets `uploadElapsedMs` to 0 and each tick of the
elapsed timer adds exactly 1000; so whenever the elapsed timer runs after the
start (as it does for every job started while the overlay is down), the elapsed
value after `n` ticks is `1000 * n`, and the values strictly increase. -/
theorem elapsed_after_ticks (s : RMState) (f : File) (n : ℕ)
    (hacc : acceptedExt (fileExt f.name) = true) :
    (cargarExcelRM (some f) s).uploadElapsedMs = 0
      ∧ (∀ (t : RMState) (h : ℕ), (h, TimerKind.elapsed) ∈ t.intervals →
          (intervalFires TimerKind.elapsed h t).uploadElapsedMs = t.uploadElapsedMs + 1000)
      ∧ (s.loadingTemplate = false →
          ∃ h, (cargarExcelRM (some f) s).elapsedRef = some h
            ∧ (h, TimerKind.elapsed) ∈ (cargarExcelRM (some f) s).intervals)
      ∧ ((∃ h, (cargarExcelRM (some f) s).elapsedRef = some h
            ∧ (h, TimerKind.elapsed) ∈ (cargarExcelRM (some f) s).intervals) →
          (fireElapsed^[n] (cargarExcelRM (some f) s)).uploadElapsedMs = 1000 * n
            ∧ (fireElapsed^[n] (cargarExcelRM (some f) s)).uploadElapsedMs
                < (fireElapsed^[n + 1] (cargarExcelRM (some f) s)).uploadElapsedMs) := by
  have h0 : (cargarExcelRM (some f) s).uploadElapsedMs = 0 := by
    rw [cargarExcelRM_accepted s f hacc, (commit_frame _ _).uploadElapsedMs]
    rfl
  refine ⟨h0, ?_, cargarExcelRM_elapsed_live s f hacc, ?_⟩
  · intro t h' hl
    simp only [intervalFires, hl, if_true]
    exact (commit_frame _ _).uploadElapsedMs
  · rintro ⟨h, href, hlive⟩
    have hn := fun k => (fireElapsed_iterate k _ h href hlive).1
    constructor
    · rw [hn n, h0, zero_add]
    · rw [hn n, hn (n + 1)]
      push_cast
      linarith

/-- The elapsed time of C9 for the upload of `ventas.xlsx` from the initial
state, four ticks in. -/
theorem elapsed_after_ticks_witness :
    acceptedExt (fileExt (File.mk "ventas.xlsx" 5242880).name) = true
      ∧ (fireElapsed^[4]
          (cargarExcelRM (some (File.mk "ventas.xlsx" 5242880)) initialState)).uploadElapsedMs
        = 1000 * ((4 : ℕ) : ℚ) :=
  ⟨by decide,
    ((elapsed_after_ticks initialState (File.mk "ventas.xlsx" 5242880) 4 (by decide)).2.2.2
      ((elapsed_after_ticks initialState (File.mk "ventas.xlsx" 5242880) 4
        (by decide)).2.2.1 rfl)).1⟩

/-! ## Ownership of the intervals -/

theorem TimersOwned.congr {s t : RMState} (hs : TimersOwned s) (hi : t.intervals = s.intervals)
    (hc : t.countdownRef = s.countdownRef) (he : t.elapsedRef = s.elapsedRef) :
    TimersOwned t := by
  intro p hp
  rw [hi] at hp
  rw [hc, he]
  exact hs p hp

theorem stopCountdown_owned (s : RMState) (hs : TimersOwned s) :
    TimersOwned (stopCountdown s) := by
  unfold stopCountdown
  cases hc : s.countdownRef with
  | none => simpa [hc] using hs
  | some h =>
    intro p hp
    simp only [clearInterval, List.mem_filter, decide_eq_true_eq] at hp
    rcases hs p hp.1 with ⟨_, h1⟩ | ⟨h2, h3⟩
    · rw [hc] at h1
      exact absurd (Option.some.inj h1).symm hp.2
    · exact Or.inr ⟨h2, h3⟩

theorem stopElapsed_owned (s : RMState) (hs : TimersOwned s) :
    TimersOwned (stopElapsed s) := by
  unfold stopElapsed
  cases hc : s.elapsedRef with
  | none => simpa [hc] using hs
  | some h =>
    intro p hp
    simp only [clearInterval, List.mem_filter, decide_eq_true_eq] at hp
    rcases hs p hp.1 with ⟨h2, h3⟩ | ⟨_, h1⟩
    · exact Or.inl ⟨h2, h3⟩
    · rw [hc] at h1
      exact absurd (Option.some.inj h1).symm hp.2

theorem countdownEffect_owned (s : RMState) (hs : TimersOwned s) :
    TimersOwned (countdownEffect s) := by
  unfold countdownEffect
  cases hr : s.uploadRemainingMs with
  | none => simpa [hr] using hs
  | some m =>
    cases hc : s.countdownRef with
    | none =>
      intro p hp
      simp only [setInterval, List.mem_append, List.mem_singleton] at hp
      rcases hp with hp | hp
      · rcases hs p hp with ⟨_, h1⟩ | ⟨h2, h3⟩
        · rw [hc] at h1
          cases h1
        · exact Or.inr ⟨h2, h3⟩
      · subst hp
        exact Or.inl ⟨rfl, rfl⟩
    | some h =>
      intro p hp
      simp only [setInterval, clearInterval, List.mem_append, List.mem_filter,
        decide_eq_true_eq, List.mem_singleton] at hp
      rcases hp with hp | hp
      · rcases hs p hp.1 with ⟨_, h1⟩ | ⟨h2, h3⟩
        · rw [hc] at h1
          exact absurd (Option.some.inj h1).symm hp.2
        · exact Or.inr ⟨h2, h3⟩
      · subst hp
        exact Or.inl ⟨rfl, rfl⟩

theorem elapsedEffect_owned (s : RMState) (hs : TimersOwned s) :
    TimersOwned (elapsedEffect s) := by
  unfold elapsedEffect
  split_ifs
  · cases hc : s.elapsedRef with
    | none =>
      intro p hp
      simp only [setInterval, List.mem_append, List.mem_singleton] at hp
      rcases hp with hp | hp
      · rcases hs p hp with ⟨h2, h3⟩ | ⟨_, h1⟩
        · exact Or.inl ⟨h2, h3⟩
        · rw [hc] at h1
          cases h1
      · subst hp
        exact Or.inr ⟨rfl, rfl⟩
    | some h =>
      intro p hp
      simp only [setInterval, clearInterval, List.mem_append, List.mem_filter,
        decide_eq_true_eq, List.mem_singleton] at hp
      rcases hp with hp | hp
      · rcases hs p hp.1 with ⟨h2, h3⟩ | ⟨_, h1⟩
        · exact Or.inl ⟨h2, h3⟩
        · rw [hc] at h1
          exact absurd (Option.some.inj h1).symm hp.2
      · subst hp
        exact Or.inr ⟨rfl, rfl⟩
  · exact hs

theorem timersOwned_ite {c : Prop} [Decidable c] {a b : RMState}
    (ha : TimersOwned a) (hb : TimersOwned b) : TimersOwned (if c then a else b) := by
  split_ifs
  · exact ha
  · exact hb

theorem commit_owned (prev s : RMState) (hs : TimersOwned s) : TimersOwned (commit prev s) := by
  unfold commit
  dsimp only
  have h1 : TimersOwned (if prev.uploadRemainingMs = s.uploadRemainingMs then s
      else countdownEffect (if prev.uploadRemainingMs.isSome then stopCountdown s else s)) :=
    timersOwned_ite hs
      (countdownEffect_owned _ (timersOwned_ite (stopCountdown_owned s hs) hs))
  exact timersOwned_ite h1
    (elapsedEffect_owned _ (timersOwned_ite (stopElapsed_owned _ h1) h1))

theorem finallyBlock_owned (s : RMState) (hs : TimersOwned s) :
    TimersOwned (finallyBlock s) := by
  unfold finallyBlock
  exact stopElapsed_owned _ (stopCountdown_owned _ (hs.congr rfl rfl rfl))

theorem catchBlock_timers (e : JsError) (s : RMState) :
    (catchBlock e s).intervals = s.intervals ∧ (catchBlock e s).countdownRef = s.countdownRef
      ∧ (catchBlock e s).elapsedRef = s.elapsedRef
      ∧ (catchBlock e s).uploadElapsedMs = s.uploadElapsedMs
      ∧ (catchBlock e s).loadingTemplate = s.loadingTemplate := by
  unfold catchBlock
  cases catchBranch e <;> exact ⟨rfl, rfl, rfl, rfl, rfl⟩

theorem loadVentasDone_timers (r : ReloadOutcome) (s : RMState) :
    (loadVentasDone r s).intervals = s.intervals
      ∧ (loadVentasDone r s).countdownRef = s.countdownRef
      ∧ (loadVentasDone r s).elapsedRef = s.elapsedRef
      ∧ (loadVentasDone r s).uploadElapsedMs = s.uploadElapsedMs
      ∧ (loadVentasDone r s).loadingTemplate = s.loadingTemplate := by
  cases r <;> exact ⟨rfl, rfl, rfl, rfl, rfl⟩

/-- Every turn keeps the intervals owned by their references. -/
theorem step_owned (s : RMState) (ev : Event) (hs : TimersOwned s) :
    TimersOwned (step s ev) := by
  cases ev with
  | selectFile file =>
    cases file with
    | none => exact hs.congr rfl rfl rfl
    | some f =>
      simp only [step, cargarExcelRM]
      split_ifs
      · exact commit_owned _ _ (hs.congr rfl rfl rfl)
      · exact hs.congr rfl rfl rfl
  | transport c o =>
    simp only [step, transportSettles]
    split
    · exact hs
    · split
      · exact commit_owned _ _ (hs.congr rfl rfl rfl)
      · split
        · refine commit_owned _ _ (TimersOwned.congr (finallyBlock_owned _ ?_) rfl rfl rfl)
          exact hs.congr (catchBlock_timers _ s).1 (catchBlock_timers _ s).2.1
            (catchBlock_timers _ s).2.2.1
        · exact hs
  | reload c r =>
    simp only [step, reloadSettles]
    split
    · exact hs
    · refine commit_owned _ _ (TimersOwned.congr (finallyBlock_owned _ ?_) rfl rfl rfl)
      exact hs.congr (loadVentasDone_timers r s).1 (loadVentasDone_timers r s).2.1
        (loadVentasDone_timers r s).2.2.1
  | interval k h =>
    simp only [step, intervalFires]
    split_ifs
    · cases k <;> exact commit_owned _ _ (hs.congr rfl rfl rfl)
    · exact hs
  | grace =>
    simp only [step, graceTimeout]
    split_ifs
    · exact commit_owned _ _ (hs.congr rfl rfl rfl)
    · exact hs
  | cancel =>
    simp only [step, cancelClick]
    split_ifs
    · cases s.abortRef <;> exact hs.congr rfl rfl rfl
    · exact hs

theorem run_owned (evs : List Event) (s : RMState) (hs : TimersOwned s) :
    TimersOwned (run s evs) := by
  induction evs generalizing s with
  | nil => exact hs
  | cons ev evs ih => exact ih _ (step_owned s ev hs)

theorem reachable_owned (s : RMState) (hs : Reachable s) : TimersOwned s := by
  obtain ⟨evs, rfl⟩ := hs
  exact run_owned evs _ (fun p hp => by simp [initialState] at hp)

/-! ## Stopped timers -/

theorem stopCountdown_of_none (s : RMState) (h : s.countdownRef = none) :
    stopCountdown s = s := by
  simp only [stopCountdown, h]

theorem stopElapsed_of_none (s : RMState) (h : s.elapsedRef = none) : stopElapsed s = s := by
  simp only [stopElapsed, h]

theorem countdownEffect_of_none (s : RMState) (h : s.uploadRemainingMs = none) :
    countdownEffect s = s := by
  simp only [countdownEffect, h]

theorem elapsedEffect_of_false (s : RMState) (h : s.loadingTemplate = false) :
    elapsedEffect s = s := by
  simp [elapsedEffect, h]

theorem TimersStopped.owned {s : RMState} (hs : TimersStopped s) : TimersOwned s := by
  intro p hp
  rw [hs.1] at hp
  cases hp

/-- The render after a handler that leaves the timers stopped and does not
raise the overlay starts no interval. -/
theorem commit_stopped (prev s : RMState) (hs : TimersStopped s)
    (hl : prev.loadingTemplate = s.loadingTemplate ∨ s.loadingTemplate = false) :
    commit prev s = s := by
  obtain ⟨_, hc, he, hr⟩ := hs
  have h1 : (if prev.uploadRemainingMs = s.uploadRemainingMs then s
      else countdownEffect (if prev.uploadRemainingMs.isSome then stopCountdown s else s))
      = s := by
    rw [stopCountdown_of_none s hc, ite_self, countdownEffect_of_none s hr, ite_self]
  unfold commit
  dsimp only
  rw [h1, stopElapsed_of_none s he, ite_self]
  rcases hl with hl | hl
  · rw [if_pos hl]
  · rw [elapsedEffect_of_false s hl, ite_self]

theorem finallyBlock_stopped (s : RMState) (hs : TimersOwned s) :
    TimersStopped (finallyBlock s) := by
  have hown := finallyBlock_owned s hs
  have hc : (finallyBlock s).countdownRef = none := by
    unfold finallyBlock stopElapsed stopCountdown clearInterval
    cases s.countdownRef <;> cases s.elapsedRef <;> rfl
  have he : (finallyBlock s).elapsedRef = none := by
    unfold finallyBlock stopElapsed stopCountdown clearInterval
    cases s.countdownRef <;> cases s.elapsedRef <;> rfl
  refine ⟨?_, hc, he, (finallyBlock_frame s).uploadRemainingMs⟩
  rw [List.eq_nil_iff_forall_not_mem]
  intro p hp
  rcases hown p hp with ⟨_, h1⟩ | ⟨_, h1⟩
  · rw [hc] at h1
    cases h1
  · rw [he] at h1
    cases h1

theorem finallyBlock_elapsed (s : RMState) :
    (finallyBlock s).uploadElapsedMs = s.uploadElapsedMs
      ∧ (finallyBlock s).loadingTemplate = s.loadingTemplate :=
  ⟨(finallyBlock_frame s).uploadElapsedMs, (finallyBlock_frame s).loadingTemplate⟩

/-- A turn in which a `finally` block runs leaves the timers stopped. -/
theorem step_finally_stopped (s : RMState) (ev : Event) (hs : TimersOwned s)
    (hfin : runsFinally s ev = true) : TimersStopped (step s ev) := by
  cases ev with
  | selectFile file => simp [runsFinally] at hfin
  | interval k h => simp [runsFinally] at hfin
  | grace => simp [runsFinally] at hfin
  | cancel => simp [runsFinally] at hfin
  | transport c o =>
    simp only [runsFinally, Bool.and_eq_true] at hfin
    obtain ⟨e, he⟩ := Option.isSome_iff_exists.mp hfin.2
    have hX : TimersStopped (dropJob c (finallyBlock (catchBlock e s))) :=
      finallyBlock_stopped _ (hs.congr (catchBlock_timers e s).1 (catchBlock_timers e s).2.1
        (catchBlock_timers e s).2.2.1)
    simp only [step]
    rw [transportSettles_error s c o e hfin.1 he, commit_stopped _ _ hX]
    · exact hX
    · left
      show s.loadingTemplate = (finallyBlock (catchBlock e s)).loadingTemplate
      rw [(finallyBlock_elapsed _).2, (catchBlock_timers e s).2.2.2.2]
  | reload c r =>
    simp only [runsFinally] at hfin
    have hX : TimersStopped (dropJob c (finallyBlock (loadVentasDone r s))) :=
      finallyBlock_stopped _ (hs.congr (loadVentasDone_timers r s).1
        (loadVentasDone_timers r s).2.1 (loadVentasDone_timers r s).2.2.1)
    simp only [step]
    rw [reloadSettles_running s c r hfin, commit_stopped _ _ hX]
    · exact hX
    · left
      show s.loadingTemplate = (finallyBlock (loadVentasDone r s)).loadingTemplate
      rw [(finallyBlock_elapsed _).2, (loadVentasDone_timers r s).2.2.2.2]

/-- While the timers are stopped, a turn that starts no job keeps them
stopped and leaves the elapsed time as it is. -/
theorem step_stopped (s : RMState) (ev : Event) (hs : TimersStopped s)
    (hno : ev.startsJob = false) :
    TimersStopped (step s ev) ∧ (step s ev).uploadElapsedMs = s.uploadElapsedMs := by
  cases ev with
  | selectFile file =>
    cases file with
    | none => exact ⟨hs, rfl⟩
    | some f =>
      simp only [Event.startsJob] at hno
      simp only [step, cargarExcelRM, hno]
      exact ⟨hs, rfl⟩
  | transport c o =>
    cases hj : findJob c JobPhase.uploading s with
    | none =>
      simp only [step]
      rw [transportSettles_idle s c o hj]
      exact ⟨hs, rfl⟩
    | some j =>
      have hjob : (findJob c JobPhase.uploading s).isSome = true := by rw [hj]; rfl
      cases hte : thrownError o with
      | none =>
        cases o with
        | rejected e => simp [thrownError] at hte
        | httpError status msg => simp [thrownError] at hte
        | success result =>
          have hX : TimersStopped
              (toReloading c (loadVentas (toastShow (resultToast result) (toastClear s)))) := hs
          simp only [step]
          rw [transportSettles_success s c result hjob, commit_stopped s _ hX (Or.inl rfl)]
          exact ⟨hX, rfl⟩
      | some e =>
        have hX : TimersStopped (dropJob c (finallyBlock (catchBlock e s))) :=
          finallyBlock_stopped _ (hs.owned.congr (catchBlock_timers e s).1
            (catchBlock_timers e s).2.1 (catchBlock_timers e s).2.2.1)
        simp only [step]
        rw [transportSettles_error s c o e hjob hte, commit_stopped s _ hX]
        · refine ⟨hX, ?_⟩
          show (finallyBlock (catchBlock e s)).uploadElapsedMs = _
          rw [(finallyBlock_elapsed _).1, (catchBlock_timers e s).2.2.2.1]
        · left
          show s.loadingTemplate = (finallyBlock (catchBlock e s)).loadingTemplate
          rw [(finallyBlock_elapsed _).2, (catchBlock_timers e s).2.2.2.2]
  | reload c r =>
    simp only [step, reloadSettles]
    split
    · exact ⟨hs, rfl⟩
    · have hX : TimersStopped (dropJob c (finallyBlock (loadVentasDone r s))) :=
        finallyBlock_stopped _ (hs.owned.congr (loadVentasDone_timers r s).1
          (loadVentasDone_timers r s).2.1 (loadVentasDone_timers r s).2.2.1)
      rw [commit_stopped _ _ hX]
      · refine ⟨hX, ?_⟩
        show (finallyBlock (loadVentasDone r s)).uploadElapsedMs = _
        rw [(finallyBlock_elapsed _).1, (loadVentasDone_timers r s).2.2.2.1]
      · left
        show s.loadingTemplate = (finallyBlock (loadVentasDone r s)).loadingTemplate
        rw [(finallyBlock_elapsed _).2, (loadVentasDone_timers r s).2.2.2.2]
  | interval k h =>
    have hnot : (h, k) ∉ s.intervals := by
      rw [hs.1]
      exact List.not_mem_nil _
    have hid : step s (Event.interval k h) = s := by
      simp only [step, intervalFires, hnot, if_false]
    rw [hid]
    exact ⟨hs, rfl⟩
  | grace =>
    simp only [step, graceTimeout]
    split_ifs
    · have hX : TimersStopped
          { s with pendingGrace := s.pendingGrace - 1, loadingTemplate := false } := hs
      rw [commit_stopped s _ hX (Or.inr rfl)]
      exact ⟨hX, rfl⟩
    · exact ⟨hs, rfl⟩
  | cancel =>
    simp only [step, cancelClick]
    split_ifs
    · cases s.abortRef <;> exact ⟨hs, rfl⟩
    · exact ⟨hs, rfl⟩

theorem run_stopped (evs : List Event) (s : RMState) (hs : TimersStopped s)
    (hno : ∀ ev ∈ evs, ev.startsJob = false) :
    TimersStopped (run s evs) ∧ (run s evs).uploadElapsedMs = s.uploadElapsedMs := by
  induction evs generalizing s with
  | nil => exact ⟨hs, rfl⟩
  | cons ev evs ih =>
    have h1 := step_stopped s ev hs (hno ev (List.mem_cons_self _ _))
    have h2 := ih (step s ev) h1.1 (fun e he => hno e (List.mem_cons_of_mem _ he))
    exact ⟨h2.1, h2.2.trans h1.2⟩

/-- A parsed result leaves both timers as they are. -/
theorem transportSettles_success_timers (s : RMState) (c : ℕ) (result : ServerResult)
    (hjob : (findJob c JobPhase.uploading s).isSome = true) :
    (transportSettles c (TransportOutcome.success result) s).intervals = s.intervals
      ∧ (transportSettles c (TransportOutcome.success result) s).elapsedRef = s.elapsedRef
      ∧ (transportSettles c (TransportOutcome.success result) s).countdownRef = s.countdownRef
      ∧ (transportSettles c (TransportOutcome.success result) s).uploadElapsedMs
          = s.uploadElapsedMs := by
  rw [transportSettles_success s c result hjob,
    commit_same s (toReloading c (loadVentas (toastShow (resultToast result) (toastClear s))))
      rfl rfl]
  exact ⟨rfl, rfl, rfl, rfl⟩

/-- C10, as stated, fails: after the upload of `ventas.xlsx` has ended with the
result `{ok: true, ...}` and the success notification is out, both interval
handles are still held and live while the call awaits `loadVentas`, and a tick
of the elapsed timer changes `uploadElapsedMs`. -/
theorem timers_run_during_reload :
    resultToast (ServerResult.mk (some true) (some 120) (some 120) none none none none)
        ∈ uploadedAwaitingReload.shown
      ∧ uploadedAwaitingReload.countdownRef = some 2
      ∧ uploadedAwaitingReload.elapsedRef = some 3
      ∧ (3, TimerKind.elapsed) ∈ uploadedAwaitingReload.intervals
      ∧ (step uploadedAwaitingReload (Event.interval TimerKind.elapsed 3)).uploadElapsedMs
          ≠ uploadedAwaitingReload.uploadElapsedMs := by
  have hjob : (findJob 1 JobPhase.uploading
      (cargarExcelRM (some (File.mk "ventas.xlsx" 5242880)) initialState)).isSome = true := by
    decide
  have hrun : uploadedAwaitingReload = transportSettles 1 (TransportOutcome.success
      (ServerResult.mk (some true) (some 120) (some 120) none none none none))
      (cargarExcelRM (some (File.mk "ventas.xlsx" 5242880)) initialState) := rfl
  have ht := transportSettles_success_timers _ 1
    (ServerResult.mk (some true) (some 120) (some 120) none none none none) hjob
  rw [← hrun] at ht
  have hlive : (3, TimerKind.elapsed) ∈ uploadedAwaitingReload.intervals := by
    rw [ht.1]
    decide
  refine ⟨?_, ?_, ?_, hlive, ?_⟩
  · rw [hrun, transportSettles_success _ 1 _ hjob, (commit_frame _ _).shown]
    simp [toReloading, loadVentas, toastShow]
  · rw [ht.2.2.1]
    decide
  · rw [ht.2.1]
    decide
  · simp only [step, intervalFires, hlive, if_true]
    rw [(commit_frame _ _).uploadElapsedMs]
    simp [elapsedTick]

/-- C10, amended: whenever the `finally` block of a call runs from a reachable
state (in the turn in which the upload ends with a cancellation or an error,
or in the turn in which the awaited `loadVentas` ends after a parsed result),
both interval handles are cleared and no interval is left alive; and whatever
happens next, as long as no new job is started, no interval comes alive and
`uploadRemainingMs` stays `null` and `uploadElapsedMs` unchanged. -/
theorem timers_stopped_after_finally (s : RMState) (ev : Event) (evs : List Event)
    (hreach : Reachable s) (hfin : runsFinally s ev = true)
    (hno : ∀ e ∈ evs, e.startsJob = false) :
    (step s ev).countdownRef = none ∧ (step s ev).elapsedRef = none
      ∧ (step s ev).intervals = [] ∧ (step s ev).uploadRemainingMs = none
      ∧ (run (step s ev) evs).intervals = []
      ∧ (run (step s ev) evs).uploadRemainingMs = none
      ∧ (run (step s ev) evs).uploadElapsedMs = (step s ev).uploadElapsedMs := by
  have h1 := step_finally_stopped s ev (reachable_owned s hreach) hfin
  have h2 := run_stopped evs _ h1 hno
  exact ⟨h1.2.1, h1.2.2.1, h1.1, h1.2.2.2, h2.1.1, h2.1.2.2.2, h2.2⟩

/-- The stopped timers of C10 after the reload of `uploadedAwaitingReload`
ends, with late ticks, the grace timeout and a click on Cancelar after it. -/
theorem timers_stopped_after_finally_witness :
    Reachable uploadedAwaitingReload
      ∧ runsFinally uploadedAwaitingReload (Event.reload 1 ReloadOutcome.loaded) = true
      ∧ (∀ e ∈ [Event.interval TimerKind.elapsed 3, Event.cancel, Event.grace,
            Event.interval TimerKind.countdown 2], e.startsJob = false)
      ∧ (run (step uploadedAwaitingReload (Event.reload 1 ReloadOutcome.loaded))
          [Event.interval TimerKind.elapsed 3, Event.cancel, Event.grace,
            Event.interval TimerKind.countdown 2]).uploadRemainingMs = none :=
  have hfin : runsFinally uploadedAwaitingReload (Event.reload 1 ReloadOutcome.loaded)
      = true := by
    have hjob : (findJob 1 JobPhase.uploading
        (cargarExcelRM (some (File.mk "ventas.xlsx" 5242880)) initialState)).isSome = true := by
      decide
    have hrun : uploadedAwaitingReload = transportSettles 1 (TransportOutcome.success
        (ServerResult.mk (some true) (some 120) (some 120) none none none none))
        (cargarExcelRM (some (File.mk "ventas.xlsx" 5242880)) initialState) := rfl
    simp only [runsFinally]
    rw [hrun, transportSettles_success _ 1 _ hjob,
      findJob_congr _ _ _ _ (commit_frame _ _).jobs]
    exact findJob_toReloading 1 _ hjob
  ⟨⟨_, rfl⟩, hfin, by decide,
    (timers_stopped_after_finally uploadedAwaitingReload (Event.reload 1 ReloadOutcome.loaded)
      [Event.interval TimerKind.elapsed 3, Event.cancel, Event.grace,
        Event.interval TimerKind.countdown 2] ⟨_, rfl⟩ hfin (by decide)).2.2.2.2.2.1⟩

/-! ## Values of the estimator -/

theorem calculateUploadTime_eq_clamp (fileSize : ℚ) :
    calculateUploadTime fileSize = min (max (totalEstimatedTime fileSize) 15000) 900000 := rfl

theorem totalEstimatedTime_eq (fileSize : ℚ) :
    totalEstimatedTime fileSize = 15000 + 4500 * fileSize / 1048576 := by
  unfold totalEstimatedTime uploadTimeMs processingTimeMs
  norm_num
  ring

/-- C17: for a file of exactly 10 MB (10 * 1048576 bytes) the transfer time is
20000 ms and the processing time 20000 ms, their sum times 1.5 is 60000, which
lies inside the clamp window, and `calculateUploadTime` returns 60000. -/
theorem calculateUploadTime_ten_megabytes :
    uploadTimeMs (10 * 1048576) = 20000
      ∧ processingTimeMs (10 * 1048576) = 20000
      ∧ totalEstimatedTime (10 * 1048576) = 60000
      ∧ (15000 : ℚ) ≤ totalEstimatedTime (10 * 1048576)
      ∧ totalEstimatedTime (10 * 1048576) ≤ 900000
      ∧ calculateUploadTime (10 * 1048576) = 60000 := by
  have h1 : uploadTimeMs (10 * 1048576) = 20000 := by
    unfold uploadTimeMs
    norm_num
  have h2 : processingTimeMs (10 * 1048576) = 20000 := by
    unfold processingTimeMs
    norm_num
  have h3 : totalEstimatedTime (10 * 1048576) = 60000 := by
    unfold totalEstimatedTime
    rw [h1, h2]
    norm_num
  refine ⟨h1, h2, h3, ?_, ?_, ?_⟩
  · rw [h3]
    norm_num
  · rw [h3]
    norm_num
  · rw [calculateUploadTime_eq_clamp, h3]
    norm_num

/-- C18: `calculateUploadTime 0 = 15000`, the lower bound of the clamp
window. -/
theorem calculateUploadTime_zero : calculateUploadTime 0 = 15000 := by
  rw [calculateUploadTime_eq]
  norm_num

/-- C19: for every `sizeBytes ≥ 0`, `calculateUploadTime sizeBytes` is
`min 900000 (15000 + 4500 * sizeBytes / 1048576)` and the value before the
clamp is at least 15000; the estimate is strictly increasing on the integer
sizes below 206219947 bytes and equals 900000 for every size from 206219947
bytes up. -/
theorem calculateUploadTime_closed_form (sizeBytes : ℚ) (h : 0 ≤ sizeBytes) :
    calculateUploadTime sizeBytes = min 900000 (15000 + 4500 * sizeBytes / 1048576)
      ∧ 15000 ≤ totalEstimatedTime sizeBytes
      ∧ (∀ a b : ℕ, a < b → b < 206219947 →
          calculateUploadTime a < calculateUploadTime b)
      ∧ (206219947 ≤ sizeBytes → calculateUploadTime sizeBytes = 900000)
      ∧ (∀ n : ℕ, n < 206219947 → calculateUploadTime n < 900000) := by
  have hlow : ∀ x : ℚ, 0 ≤ x → (15000 : ℚ) ≤ 15000 + 4500 * x / 1048576 := by
    intro x hx
    have : 0 ≤ 4500 * x / 1048576 := by positivity
    linarith
  have hbelow : ∀ n : ℕ, n < 206219947 →
      calculateUploadTime n = 15000 + 4500 * (n : ℚ) / 1048576 := by
    intro n hn
    have hn' : (n : ℚ) ≤ 206219946 := by exact_mod_cast Nat.lt_succ_iff.mp hn
    rw [calculateUploadTime_eq, max_eq_left (hlow _ (Nat.cast_nonneg n)), min_eq_left]
    linarith
  refine ⟨?_, ?_, ?_, ?_, ?_⟩
  · rw [calculateUploadTime_eq, max_eq_left (hlow _ h), min_comm]
  · rw [totalEstimatedTime_eq]
    exact hlow _ h
  · intro a b hab hb
    rw [hbelow a (lt_trans hab hb), hbelow b hb]
    have : (a : ℚ) < b := by exact_mod_cast hab
    linarith
  · intro hbig
    rw [calculateUploadTime_eq, max_eq_left (hlow _ h), min_eq_right]
    linarith
  · intro n hn
    have hn' : (n : ℚ) ≤ 206219946 := by exact_mod_cast Nat.lt_succ_iff.mp hn
    rw [hbelow n hn]
    linarith

/-- The closed form of C19 at a file of 1 MB: the estimate is 19500. -/
theorem calculateUploadTime_closed_form_witness :
    (0 : ℚ) ≤ 1048576
      ∧ calculateUploadTime 1048576 = min 900000 (15000 + 4500 * 1048576 / 1048576) :=
  ⟨by norm_num, (calculateUploadTime_closed_form 1048576 (by norm_num)).1⟩

/-! ## Error messages for responses that are not `ok` -/

theorem apiFetchBase_ne_empty (status : ℕ) : apiFetchBase status ≠ "" := by
  have hlen : ∀ (a b c : String), 0 < a.length → a ++ b ++ c ≠ "" := by
    intro a b c ha h
    have hl := congrArg String.length h
    simp only [String.length_append] at hl
    have h0 : "".length = 0 := rfl
    omega
  unfold apiFetchBase
  split_ifs
  · decide
  · decide
  · exact hlen _ _ _ (by decide)
  · exact hlen _ _ _ (by decide)

theorem apiFetchMessage_eq (status : ℕ) (msg : String) :
    apiFetchMessage status msg
      = if msg = "" then apiFetchBase status
        else apiFetchBase status ++ " | Detalle: " ++ msg := by
  have hb := apiFetchBase_ne_empty status
  unfold apiFetchMessage
  by_cases hm : msg = ""
  · subst hm
    simp [List.filter, hb, String.intercalate, String.intercalate.go]
  · have hd : "Detalle: " ++ msg ≠ "" := by
      intro h
      have hl := congrArg String.length h
      simp only [String.length_append] at hl
      have h9 : "Detalle: ".length = 9 := by decide
      have h0 : "".length = 0 := rfl
      omega
    simp only [hm, if_false, List.filter, hb, hd, ne_eq, not_false_eq_true, decide_True,
      String.intercalate, String.intercalate.go]
    rw [String.append_assoc, String.append_assoc]
    rfl

/-- C11: for every status of a response that is not `ok`, the message of the
error thrown by `apiFetch` starts with a text fixed by the status alone: the
endpoint-not-found text for 404, the invalid-data text for 422, the
server-error text with the status for any status from 500 up, and the generic
HTTP-error text with the status otherwise. The detail is read from the body of
the response: for a `Content-Type` that contains `application/json` it is the
first non-empty one of the body's `error`, its `message` and the body printed as
JSON, otherwise it is the text of the body, and it is empty when the body cannot
be read. The detail is appended as " | Detalle: " and the detail exactly when it
is not empty. -/
theorem apiFetch_error_message (res : ErrorResponse) :
    (res.status = 404 →
        apiFetchBase res.status = "No encontrado (404): endpoint inexistente.")
      ∧ (res.status = 422 → apiFetchBase res.status = "Datos inválidos (422).")
      ∧ (500 ≤ res.status →
          apiFetchBase res.status = "Error del servidor (" ++ Nat.repr res.status ++ ")")
      ∧ (res.status ≠ 404 → res.status ≠ 422 → res.status < 500 →
          apiFetchBase res.status = "Error HTTP (" ++ Nat.repr res.status ++ ")")
      ∧ (¬ "application/json".data <:+: (res.contentType.getD "").data →
          (∀ t, res.text = some t → t ≠ "" →
              (apiFetchError res).message = apiFetchBase res.status ++ " | Detalle: " ++ t)
            ∧ (res.text = some "" ∨ res.text = none →
              (apiFetchError res).message = apiFetchBase res.status))
      ∧ ("application/json".data <:+: (res.contentType.getD "").data →
          (∀ j x, res.json = some j → j.error = some x → x ≠ "" →
              (apiFetchError res).message = apiFetchBase res.status ++ " | Detalle: " ++ x)
            ∧ (∀ j y, res.json = some j → (j.error = none ∨ j.error = some "") →
              j.message = some y → y ≠ "" →
              (apiFetchError res).message = apiFetchBase res.status ++ " | Detalle: " ++ y)
            ∧ (∀ j, res.json = some j → (j.error = none ∨ j.error = some "") →
              (j.message = none ∨ j.message = some "") → j.stringified ≠ "" →
              (apiFetchError res).message
                = apiFetchBase res.status ++ " | Detalle: " ++ j.stringified)
            ∧ (∀ j, res.json = some j → (j.error = none ∨ j.error = some "") →
              (j.message = none ∨ j.message = some "") → j.stringified = "" →
              (apiFetchError res).message = apiFetchBase res.status)
            ∧ (res.json = none → (apiFetchError res).message = apiFetchBase res.status)) := by
  have hmsg : ∀ d : String, errorDetail res = d →
      (apiFetchError res).message
        = if d = "" then apiFetchBase res.status
          else apiFetchBase res.status ++ " | Detalle: " ++ d := by
    intro d hd
    rw [← hd]
    exact apiFetchMessage_eq _ _
  have horErr : ∀ (a : Option String) (b : String), (a = none ∨ a = some "") →
      orElse a b = b := by
    intro a b h
    rcases h with h | h <;> simp [orElse, h]
  have horOk : ∀ (a : Option String) (b x : String), a = some x → x ≠ "" →
      orElse a b = x := by
    intro a b x h hx
    simp [orElse, h, hx]
  refine ⟨?_, ?_, ?_, ?_, ?_, ?_⟩
  · intro h
    simp [apiFetchBase, h]
  · intro h
    simp [apiFetchBase, h]
  · intro h
    have h1 : res.status ≠ 404 := by omega
    have h2 : res.status ≠ 422 := by omega
    simp [apiFetchBase, h1, h2, h]
  · intro h1 h2 h3
    have h4 : ¬ 500 ≤ res.status := by omega
    simp [apiFetchBase, h1, h2, h4]
  · intro hct
    have hinc : includes (res.contentType.getD "") "application/json" = false := by
      simp [includes, hct]
    refine ⟨?_, ?_⟩
    · intro t ht hne
      have hd : errorDetail res = t := by
        simp only [errorDetail, hinc, ht]
        rfl
      rw [hmsg t hd, if_neg hne]
    · intro ht
      have hd : errorDetail res = "" := by
        rcases ht with ht | ht
        · simp only [errorDetail, hinc, ht]
          rfl
        · simp only [errorDetail, hinc, ht]
          rfl
      rw [hmsg "" hd, if_pos rfl]
  · intro hct
    have hinc : includes (res.contentType.getD "") "application/json" = true := by
      simp [includes, hct]
    refine ⟨?_, ?_, ?_, ?_, ?_⟩
    · intro j x hj hx hne
      have hd : errorDetail res = x := by
        simp only [errorDetail, hinc, hj, if_true]
        exact horOk _ _ x hx hne
      rw [hmsg x hd, if_neg hne]
    · intro j y hj he hy hne
      have hd : errorDetail res = y := by
        simp only [errorDetail, hinc, hj, if_true]
        rw [horErr _ _ he]
        exact horOk _ _ y hy hne
      rw [hmsg y hd, if_neg hne]
    · intro j hj he hm hne
      have hd : errorDetail res = j.stringified := by
        simp only [errorDetail, hinc, hj, if_true]
        rw [horErr _ _ he, horErr _ _ hm]
      rw [hmsg _ hd, if_neg hne]
    · intro j hj he hm hs
      have hd : errorDetail res = "" := by
        simp only [errorDetail, hinc, hj, if_true]
        rw [horErr _ _ he, horErr _ _ hm, hs]
      rw [hmsg "" hd, if_pos rfl]
    · intro hj
      have hd : errorDetail res = "" := by
        simp only [errorDetail, hinc, hj, if_true]
      rw [hmsg "" hd, if_pos rfl]

/-- The message of C11 for the 404 response `notFoundResponse`, whose JSON body
has the `error` text `Ruta no encontrada`. -/
theorem apiFetch_error_message_witness :
    "application/json".data <:+: (notFoundResponse.contentType.getD "").data
      ∧ notFoundResponse.status = 404
      ∧ (apiFetchError notFoundResponse).message
          = apiFetchBase notFoundResponse.status ++ " | Detalle: " ++ "Ruta no encontrada"
      ∧ apiFetchBase notFoundResponse.status = "No encontrado (404): endpoint inexistente." :=
  ⟨by decide, rfl,
    ((apiFetch_error_message notFoundResponse).2.2.2.2.2 (by decide)).1 _ "Ruta no encontrada"
      rfl rfl (by decide),
    (apiFetch_error_message notFoundResponse).1 rfl⟩


/-! ## Notifications of a call -/

theorem catchBlock_eq (e : JsError) (s : RMState) :
    catchBlock e s = showError (catchText e) (toastClear s) := by
  unfold catchBlock catchText
  cases catchBranch e <;> rfl

/-- The turn in which the upload of a waiting call ends with the error `e`
replaces the notifications on screen by the one of the `catch` block. -/
theorem transportSettles_error_toasts (s : RMState) (c : ℕ) (o : TransportOutcome)
    (e : JsError) (hjob : (findJob c JobPhase.uploading s).isSome = true)
    (he : thrownError o = some e) :
    (transportSettles c o s).toasts = [mkToast "error" "Error" (some (catchText e)) 9000]
      ∧ (transportSettles c o s).shown
          = s.shown ++ [mkToast "error" "Error" (some (catchText e)) 9000] := by
  rw [transportSettles_error s c o e hjob he, (commit_frame _ _).toasts,
    (commit_frame _ _).shown]
  have h1 : (dropJob c (finallyBlock (catchBlock e s))).toasts = (catchBlock e s).toasts :=
    (finallyBlock_frame _).toasts
  have h2 : (dropJob c (finallyBlock (catchBlock e s))).shown = (catchBlock e s).shown :=
    (finallyBlock_frame _).shown
  rw [h1, h2, catchBlock_eq]
  exact ⟨rfl, rfl⟩

/-- The evaluation for C12: for the 404 response with the JSON body
`{"error": "Ruta no encontrada"}`, `apiFetch` throws the classified message
with the detail appended, while `cargarExcelRM` throws and shows the bare detail
`Ruta no encontrada`, without any text for the status; and for a 500 response
without a body it shows `Error HTTP 500` where `apiFetch` says
`Error del servidor (500)`. -/
theorem cargarExcelRM_http_error_unclassified :
    (apiFetchError notFoundResponse).message
        = "No encontrado (404): endpoint inexistente. | Detalle: Ruta no encontrada"
      ∧ thrownError (httpErrorOf notFoundResponse)
          = some { name := "Error", message := "Ruta no encontrada" }
      ∧ (transportSettles 1 (httpErrorOf notFoundResponse) uploadingVentas).toasts
          = [mkToast "error" "Error" (some "Ruta no encontrada") 9000]
      ∧ thrownError (TransportOutcome.httpError 500 "")
          = some { name := "Error", message := "Error HTTP 500" }
      ∧ apiFetchMessage 500 "" = "Error del servidor (500)" := by
  refine ⟨by decide, by decide, ?_, by decide, by decide⟩
  have hjob : (findJob 1 JobPhase.uploading uploadingVentas).isSome = true := by decide
  have he : thrownError (httpErrorOf notFoundResponse)
      = some { name := "Error", message := "Ruta no encontrada" } := by decide
  rw [(transportSettles_error_toasts uploadingVentas 1 _ _ hjob he).1]
  decide


theorem cancelClick_shown (s : RMState) (hlt : s.loadingTemplate = true) :
    (cancelClick s).shown = s.shown ++ [cancelInfoToast]
      ∧ (cancelClick s).toasts = [cancelInfoToast]
      ∧ (cancelClick s).jobs = s.jobs := by
  simp only [cancelClick, hlt, if_true]
  cases s.abortRef <;> exact ⟨rfl, rfl, rfl⟩

/-- C13, as stated, fails: one click on Cancelar during the upload of
`ventas.xlsx`, followed by the abort it raises, emits two notifications after
the start notification: the one of the button and the one of the `catch`
block. -/
theorem cancellation_emits_two_notifications :
    (run initialState
        [Event.selectFile (some (File.mk "ventas.xlsx" 5242880)), Event.cancel,
          Event.transport 1 (TransportOutcome.rejected
            (JsError.mk "AbortError" "The user aborted a request."))]).shown.drop 1
      = [cancelInfoToast, cancelledToast] := by
  decide

/-- C13, amended: the turn in which the upload of a waiting call ends, with a
parsed result or with an error, emits exactly one notification, which replaces
those on screen; a click on Cancelar emits a notification of its own, so a user
cancellation (the click, then the abort it raises) emits two, of which the
second alone stays on screen. -/
theorem one_notification_per_settle (s : RMState) (c : ℕ) (o : TransportOutcome)
    (hjob : (findJob c JobPhase.uploading s).isSome = true)
    (hlt : s.loadingTemplate = true) :
    (∃ t, (transportSettles c o s).shown = s.shown ++ [t]
        ∧ (transportSettles c o s).toasts = [t])
      ∧ (cancelClick s).shown = s.shown ++ [cancelInfoToast]
      ∧ (∀ m : String,
          (transportSettles c (TransportOutcome.rejected (JsError.mk "AbortError" m))
              (cancelClick s)).shown = s.shown ++ [cancelInfoToast, cancelledToast]
            ∧ (transportSettles c (TransportOutcome.rejected (JsError.mk "AbortError" m))
              (cancelClick s)).toasts = [cancelledToast]) := by
  refine ⟨?_, (cancelClick_shown s hlt).1, ?_⟩
  · cases hte : thrownError o with
    | none =>
      cases o with
      | rejected e => simp [thrownError] at hte
      | httpError status msg => simp [thrownError] at hte
      | success result =>
        refine ⟨resultToast result, ?_, ?_⟩
        · rw [transportSettles_success s c result hjob, (commit_frame _ _).shown]
          rfl
        · rw [transportSettles_success s c result hjob, (commit_frame _ _).toasts]
          rfl
    | some e =>
      have h := transportSettles_error_toasts s c o e hjob hte
      exact ⟨_, h.2, h.1⟩
  · intro m
    have hjob' : (findJob c JobPhase.uploading (cancelClick s)).isSome = true := by
      rw [findJob_congr c _ s (cancelClick s) (cancelClick_shown s hlt).2.2]
      exact hjob
    have h := transportSettles_error_toasts (cancelClick s) c
      (TransportOutcome.rejected (JsError.mk "AbortError" m)) (JsError.mk "AbortError" m)
      hjob' rfl
    have htext : catchText (JsError.mk "AbortError" m) = "Carga cancelada o abortada." := by
      simp [catchText, catchBranch]
    rw [htext] at h
    rw [h.1, h.2, (cancelClick_shown s hlt).1]
    exact ⟨by simp [cancelledToast], rfl⟩

/-- The notifications of C13 for a cancellation of the upload of
`ventas.xlsx`. -/
theorem one_notification_per_settle_witness :
    (findJob 1 JobPhase.uploading uploadingVentas).isSome = true
      ∧ uploadingVentas.loadingTemplate = true
      ∧ (cancelClick uploadingVentas).shown = uploadingVentas.shown ++ [cancelInfoToast] :=
  ⟨by decide, by decide,
    (one_notification_per_settle uploadingVentas 1
      (TransportOutcome.rejected (JsError.mk "AbortError" "The user aborted a request."))
      (by decide) (by decide)).2.1⟩

/-- C14, as stated, fails: a second click on Cancelar during the upload of
`ventas.xlsx` emits a further notification, and a click after the upload has
failed, in the grace period with `abortRef` already `null`, replaces the failure
notification on screen by a cancellation notification. -/
theorem cancel_twice_emits_twice :
    (cancelClick uploadingVentas).shown.length = 2
      ∧ (cancelClick (cancelClick uploadingVentas)).shown.length = 3
      ∧ (transportSettles 1 (TransportOutcome.rejected (JsError.mk "TypeError" "Failed to fetch"))
          uploadingVentas).abortRef = none
      ∧ (transportSettles 1 (TransportOutcome.rejected (JsError.mk "TypeError" "Failed to fetch"))
          uploadingVentas).loadingTemplate = true
      ∧ (cancelClick (transportSettles 1
          (TransportOutcome.rejected (JsError.mk "TypeError" "Failed to fetch"))
          uploadingVentas)).toasts = [cancelInfoToast]
      ∧ (cancelClick (transportSettles 1
          (TransportOutcome.rejected (JsError.mk "TypeError" "Failed to fetch"))
          uploadingVentas)).shown.length = 3 := by
  decide

/-- C14, amended: the abort itself is idempotent and a click only acts while the
overlay is shown: with `loadingTemplate` false a click changes nothing; with
`loadingTemplate` true (during the upload, the reload and the grace period)
every click replaces the notifications on screen by the cancellation
notification and emits it once more, and a second click in a row changes
nothing else: the state after two clicks is the state after one, but for the
record of emitted notifications, which has one more entry; with `abortRef`
`null` no controller is aborted. -/
theorem cancelClick_repeated (s : RMState) :
    (s.loadingTemplate = false → cancelClick s = s)
      ∧ (s.loadingTemplate = true →
          (cancelClick s).toasts = [cancelInfoToast]
            ∧ (cancelClick s).shown = s.shown ++ [cancelInfoToast]
            ∧ cancelClick (cancelClick s)
                = { cancelClick s with shown := (cancelClick s).shown ++ [cancelInfoToast] })
      ∧ (s.abortRef = none → (cancelClick s).aborted = s.aborted) := by
  refine ⟨?_, ?_, ?_⟩
  · intro h
    simp [cancelClick, h]
  · intro h
    refine ⟨(cancelClick_shown s h).2.1, (cancelClick_shown s h).1, ?_⟩
    cases hab : s.abortRef with
    | none =>
      simp [cancelClick, h, hab, showInfo, toastShow, toastClear, cancelInfoToast]
    | some c =>
      by_cases hc : c ∈ s.aborted
      · simp [cancelClick, h, hab, hc, showInfo, toastShow, toastClear, cancelInfoToast]
      · simp [cancelClick, h, hab, hc, showInfo, toastShow, toastClear, cancelInfoToast]
  · intro h
    unfold cancelClick
    split_ifs
    · simp [h, showInfo, toastShow, toastClear]
    · rfl

/-- The repeated click of C14 during the upload of `ventas.xlsx`. -/
theorem cancelClick_repeated_witness :
    uploadingVentas.loadingTemplate = true
      ∧ (cancelClick uploadingVentas).toasts = [cancelInfoToast] :=
  ⟨by decide, ((cancelClick_repeated uploadingVentas).2.1 (by decide)).1⟩

/-! ## A call during an upload -/

theorem cargarExcelRM_started (s : RMState) (f : File)
    (hacc : acceptedExt (fileExt f.name) = true) :
    (cargarExcelRM (some f) s).requests = s.requests ++ [Request.upload f s.nextHandle]
      ∧ (cargarExcelRM (some f) s).jobs
          = s.jobs ++ [{ controller := s.nextHandle, file := f, phase := JobPhase.uploading }]
      ∧ (cargarExcelRM (some f) s).abortRef = some s.nextHandle
      ∧ (cargarExcelRM (some f) s).uploadElapsedMs = 0
      ∧ (cargarExcelRM (some f) s).uploadRemainingMs = some (calculateUploadTime f.size) := by
  rw [cargarExcelRM_accepted s f hacc]
  exact ⟨(commit_frame _ _).requests, (commit_frame _ _).jobs, (commit_frame _ _).abortRef,
    (commit_frame _ _).uploadElapsedMs, (commit_frame _ _).uploadRemainingMs⟩

/-- C15, as stated, fails: a call with the valid file `stock.xls` while
`ventas.xlsx` is uploading is not rejected: a second request is issued, two
calls are in flight and `abortRef` holds the new controller instead of the
one of the running upload. -/
theorem second_upload_not_rejected :
    uploadingVentas.requests.length = 1
      ∧ uploadingVentas.abortRef = some 1
      ∧ (cargarExcelRM (some (File.mk "stock.xls" 1048576)) uploadingVentas).requests.length = 2
      ∧ (cargarExcelRM (some (File.mk "stock.xls" 1048576)) uploadingVentas).jobs.length = 2
      ∧ (cargarExcelRM (some (File.mk "stock.xls" 1048576)) uploadingVentas).abortRef
          = some 4 := by
  have h := cargarExcelRM_started uploadingVentas (File.mk "stock.xls" 1048576) (by decide)
  rw [h.1, h.2.1, h.2.2.1]
  decide

/-- C15, amended: `cargarExcelRM` has no guard against a call while a job is
uploading: a call with a valid file then starts a second job next to the
running one: the upload request is issued, the running call stays in flight,
`abortRef` is overwritten with the new controller, `uploadElapsedMs` is reset
to 0 and `uploadRemainingMs` is seeded with the new estimate. -/
theorem cargarExcelRM_reentrant (s : RMState) (f : File) (j : Job)
    (hacc : acceptedExt (fileExt f.name) = true) (hj : j ∈ s.jobs)
    (hup : j.phase = JobPhase.uploading) :
    (cargarExcelRM (some f) s).requests = s.requests ++ [Request.upload f s.nextHandle]
      ∧ (cargarExcelRM (some f) s).jobs
          = s.jobs ++ [{ controller := s.nextHandle, file := f, phase := JobPhase.uploading }]
      ∧ (j ∈ (cargarExcelRM (some f) s).jobs ∧ j.phase = JobPhase.uploading)
      ∧ (cargarExcelRM (some f) s).abortRef = some s.nextHandle
      ∧ (cargarExcelRM (some f) s).uploadElapsedMs = 0
      ∧ (cargarExcelRM (some f) s).uploadRemainingMs = some (calculateUploadTime f.size) := by
  have h := cargarExcelRM_started s f hacc
  refine ⟨h.1, h.2.1, ⟨?_, hup⟩, h.2.2.1, h.2.2.2.1, h.2.2.2.2⟩
  rw [h.2.1]
  exact List.mem_append_left _ hj

/-- The second call of C15 while `ventas.xlsx` is uploading. -/
theorem cargarExcelRM_reentrant_witness :
    acceptedExt (fileExt (File.mk "stock.xls" 1048576).name) = true
      ∧ Job.mk 1 (File.mk "ventas.xlsx" 5242880) JobPhase.uploading ∈ uploadingVentas.jobs
      ∧ (cargarExcelRM (some (File.mk "stock.xls" 1048576)) uploadingVentas).requests
          = uploadingVentas.requests
              ++ [Request.upload (File.mk "stock.xls" 1048576) uploadingVentas.nextHandle] :=
  ⟨by decide, by decide,
    (cargarExcelRM_reentrant uploadingVentas (File.mk "stock.xls" 1048576)
      (Job.mk 1 (File.mk "ventas.xlsx" 5242880) JobPhase.uploading)
      (by decide) (by decide) rfl).1⟩

/-! ## The file name of a `Content-Disposition` header -/

/-- The evaluation for C16: on a header with `filename="a.txt"` before
`filename*=UTF-8''b.txt`, `getFilenameFromCD` returns the decoded plain value
`a.txt`, not the RFC 5987 value `b.txt`; with the two parameters in the other
order it returns `b.txt`; and it returns `null` for an absent or an empty
header. -/
theorem getFilenameFromCD_plain_first (decodeURIComponent : String → Except JsError String) :
    execFilename plainThenStarHeader.data = some "a.txt".data
      ∧ getFilenameFromCD decodeURIComponent (some plainThenStarHeader)
          = (decodeURIComponent "a.txt").map some
      ∧ getFilenameFromCD decodeURIComponent
          (some "attachment; filename*=UTF-8''b.txt; filename=\"a.txt\"")
          = (decodeURIComponent "b.txt").map some
      ∧ getFilenameFromCD decodeURIComponent none = Except.ok none
      ∧ getFilenameFromCD decodeURIComponent (some "") = Except.ok none := by
  have h1 : execFilename plainThenStarHeader.data = some "a.txt".data := by decide
  have h2 : execFilename "attachment; filename*=UTF-8''b.txt; filename=\"a.txt\"".data
      = some "b.txt".data := by decide
  have t1 : trim "a.txt".data = "a.txt".data := by decide
  have t2 : trim "b.txt".data = "b.txt".data := by decide
  refine ⟨h1, ?_, ?_, rfl, rfl⟩
  · have hne : plainThenStarHeader ≠ "" := by decide
    simp only [getFilenameFromCD, hne, if_false, h1, t1]
  · have hne : ("attachment; filename*=UTF-8''b.txt; filename=\"a.txt\"" : String) ≠ "" := by
      decide
    simp only [getFilenameFromCD, hne, if_false, h2, t2]

/-! ## Formatted durations -/

theorem mathRound_intCast (ms : ℤ) : mathRound ((ms : ℚ) / 1000) = (ms + 500) / 1000 := by
  unfold mathRound
  have h : (ms : ℚ) / 1000 + 1 / 2 = ((ms + 500 : ℤ) : ℚ) / ((1000 : ℕ) : ℚ) := by
    push_cast
    ring
  rw [h, Rat.floor_intCast_div_natCast]
  rfl

theorem padStart2_repr (n : ℕ) (h : n < 100) : padStart2 (Nat.repr n) = twoDigits n := by
  interval_cases n <;> rfl

theorem digitValue_digitChar (k : ℕ) (h : k < 10) : digitValue (Nat.digitChar k) = k := by
  interval_cases k <;> rfl

theorem toDigitsCore_append (fuel n : ℕ) (ds : List Char) :
    Nat.toDigitsCore 10 fuel n ds = Nat.toDigitsCore 10 fuel n [] ++ ds := by
  induction fuel generalizing n ds with
  | zero => simp [Nat.toDigitsCore]
  | succ fuel ih =>
    simp only [Nat.toDigitsCore]
    split_ifs
    · simp
    · rw [ih (n / 10) (Nat.digitChar (n % 10) :: ds), ih (n / 10) [Nat.digitChar (n % 10)]]
      simp

theorem decimalValue_append (xs : List Char) (c : Char) :
    decimalValue (xs ++ [c]) = 10 * decimalValue xs + digitValue c := by
  simp [decimalValue, List.foldl_append]

theorem decimalValue_toDigitsCore (fuel n : ℕ) (h : n < fuel) :
    decimalValue (Nat.toDigitsCore 10 fuel n []) = n := by
  induction fuel generalizing n with
  | zero => omega
  | succ fuel ih =>
    simp only [Nat.toDigitsCore]
    split_ifs with h0
    · have hn : n % 10 = n := by omega
      have hd := digitValue_digitChar (n % 10) (Nat.mod_lt _ (by decide))
      simp only [decimalValue, List.foldl, hd]
      omega
    · rw [toDigitsCore_append, decimalValue_append, ih (n / 10) (by omega),
        digitValue_digitChar (n % 10) (Nat.mod_lt _ (by decide))]
      omega

/-- The decimal digits of a number write that number. -/
theorem decimalValue_repr (n : ℕ) : decimalValue (Nat.repr n).data = n :=
  decimalValue_toDigitsCore (n + 1) n (Nat.lt_succ_self n)

theorem twoDigits_injective (a b : ℕ) (ha : a < 100) (hb : b < 100)
    (h : twoDigits a = twoDigits b) : a = b := by
  have hd := congrArg String.data h
  simp only [twoDigits, List.cons.injEq, and_true] at hd
  have h1 := congrArg digitValue hd.1
  have h2 := congrArg digitValue hd.2
  rw [digitValue_digitChar _ (by omega), digitValue_digitChar _ (by omega)] at h1
  rw [digitValue_digitChar _ (Nat.mod_lt _ (by decide)),
    digitValue_digitChar _ (Nat.mod_lt _ (by decide))] at h2
  omega

/-! ### Rounding to a double -/

theorem roundHalfEven_ge (x : ℚ) (n : ℤ) (h : (n : ℚ) ≤ x) : n ≤ roundHalfEven x := by
  have hf : n ≤ ⌊x⌋ := Int.le_floor.mpr h
  unfold roundHalfEven
  dsimp only
  split_ifs <;> omega

theorem roundHalfEven_le (x : ℚ) (n : ℤ) (h : x < (n : ℚ) + 1 / 2) : roundHalfEven x ≤ n := by
  have hfl : (⌊x⌋ : ℚ) ≤ x := Int.floor_le x
  have hlt : ⌊x⌋ < n + 1 := Int.floor_lt.mpr (by push_cast; linarith)
  unfold roundHalfEven
  dsimp only
  by_cases hc : ⌊x⌋ < n
  · split_ifs <;> omega
  · have hge : (n : ℚ) ≤ ⌊x⌋ := by exact_mod_cast not_lt.mp hc
    rw [if_pos (by linarith)]
    omega

/-- A number within less than a half of an integer rounds to it. -/
theorem roundHalfEven_eq (x : ℚ) (n : ℤ) (h1 : (n : ℚ) - 1 / 2 < x) (h2 : x < (n : ℚ) + 1 / 2) :
    roundHalfEven x = n := by
  have hle := roundHalfEven_le x n h2
  have hge : n - 1 ≤ roundHalfEven x - 1 := by
    have := roundHalfEven_le (-x) (-n) (by push_cast; linarith)
    have hfl : (⌊x⌋ : ℚ) ≤ x := Int.floor_le x
    have hlt : x < ⌊x⌋ + 1 := Int.lt_floor_add_one x
    have hn : n - 1 ≤ ⌊x⌋ := Int.le_floor.mpr (by push_cast; linarith)
    unfold roundHalfEven
    dsimp only
    by_cases hc : n ≤ ⌊x⌋
    · split_ifs <;> omega
    · have hf : ⌊x⌋ = n - 1 := by omega
      have hf' : (⌊x⌋ : ℚ) = n - 1 := by rw [hf]; push_cast; ring
      rw [if_neg (by rw [hf']; linarith), if_pos (by rw [hf']; linarith)]
      omega
  omega

/-- The exponent of the last bit of a double below 2^44 is at most -9. -/
theorem toDouble_exponent (q : ℚ) (h0 : q ≠ 0) (hq : |q| < 2 ^ 44) :
    ∃ j : ℕ, (2 : ℚ) ^ (Int.log 2 |q| - 52) = 1 / (512 * 2 ^ j) := by
  have hpos : 0 < |q| := abs_pos.mpr h0
  have hlog : Int.log 2 |q| < 44 := by
    apply (Int.lt_zpow_iff_log_lt (by decide) hpos).mp
    norm_num
    exact hq
  obtain ⟨j, hj⟩ : ∃ j : ℕ, Int.log 2 |q| - 52 = -((9 + j : ℕ) : ℤ) :=
    ⟨(-9 - (Int.log 2 |q| - 52)).toNat, by push_cast; omega⟩
  refine ⟨j, ?_⟩
  rw [hj, zpow_neg, zpow_natCast, pow_add]
  norm_num

/-- Rounding to a double does not cross a multiple of 2^-9 below the number,
as long as the number is below 2^44. -/
theorem toDouble_ge (q : ℚ) (A : ℤ) (hq : |q| < 2 ^ 44) (h : (A : ℚ) / 512 ≤ q) :
    (A : ℚ) / 512 ≤ toDouble q := by
  unfold toDouble
  by_cases h0 : q = 0
  · rw [if_pos h0]
    rw [h0] at h
    exact h
  · rw [if_neg h0]
    dsimp only
    obtain ⟨j, hj⟩ := toDouble_exponent q h0 hq
    rw [hj]
    have hW : (0 : ℚ) < 2 ^ j := by positivity
    have hr := roundHalfEven_ge (q / (1 / (512 * 2 ^ j))) (A * 2 ^ j) (by
      push_cast
      rw [div_div_eq_mul_div, div_one]
      have : (A : ℚ) ≤ q * 512 := by linarith
      nlinarith)
    have hr' : ((A * 2 ^ j : ℤ) : ℚ) ≤ (roundHalfEven (q / (1 / (512 * 2 ^ j))) : ℚ) := by
      exact_mod_cast hr
    push_cast at hr'
    have hA : (A : ℚ) / 512 = (A * 2 ^ j) / (512 * 2 ^ j) := by
      field_simp
      ring
    rw [hA, mul_one_div]
    exact (div_le_div_iff_of_pos_right (by positivity)).mpr hr'

/-- Rounding to a double does not reach a multiple of 2^-9 that lies more than
2^-10 above the number, as long as the number is below 2^44. -/
theorem toDouble_lt (q : ℚ) (B : ℤ) (hq : |q| < 2 ^ 44) (h : q < (B : ℚ) / 512 - 1 / 1024) :
    toDouble q < (B : ℚ) / 512 := by
  unfold toDouble
  by_cases h0 : q = 0
  · rw [if_pos h0]
    rw [h0] at h
    linarith
  · rw [if_neg h0]
    dsimp only
    obtain ⟨j, hj⟩ := toDouble_exponent q h0 hq
    rw [hj]
    have hW : (1 : ℚ) ≤ 2 ^ j := one_le_pow₀ (by norm_num)
    have hr := roundHalfEven_le (q / (1 / (512 * 2 ^ j))) (B * 2 ^ j - 1) (by
      push_cast
      rw [div_div_eq_mul_div, div_one]
      have : q * 512 < (B : ℚ) - 1 / 2 := by linarith
      nlinarith)
    have hr' : (roundHalfEven (q / (1 / (512 * 2 ^ j))) : ℚ) ≤ ((B * 2 ^ j - 1 : ℤ) : ℚ) := by
      exact_mod_cast hr
    push_cast at hr'
    have hB : (B : ℚ) / 512 = (B * 2 ^ j) / (512 * 2 ^ j) := by
      field_simp
      ring
    rw [hB, mul_one_div]
    exact (div_lt_div_iff_of_pos_right (by positivity)).mpr (by linarith)

/-- The seconds of a safe integer number of milliseconds: the division by 1000
rounded to a double, then rounded to an integer, gives the exact rounding. -/
theorem mathRound_toDouble (ms : ℤ) (hlo : -(2 ^ 53 - 1) ≤ ms) (hhi : ms ≤ 2 ^ 53 - 1) :
    mathRound (toDouble ((ms : ℚ) / 1000)) = (ms + 500) / 1000 := by
  have hq : |(ms : ℚ) / 1000| < 2 ^ 44 := by
    rw [abs_lt]
    have h1 : (-(2 ^ 53 - 1) : ℚ) ≤ ms := by exact_mod_cast hlo
    have h2 : (ms : ℚ) ≤ 2 ^ 53 - 1 := by exact_mod_cast hhi
    constructor
    · rw [lt_div_iff₀ (by norm_num)]
      linarith
    · rw [div_lt_iff₀ (by norm_num)]
      linarith
  have hk1 : 1000 * ((ms + 500) / 1000) ≤ ms + 500 := by omega
  have hk2 : ms + 500 < 1000 * ((ms + 500) / 1000) + 1000 := by omega
  generalize (ms + 500) / 1000 = k at hk1 hk2
  have hk1' : (1000 : ℚ) * k ≤ ms + 500 := by exact_mod_cast hk1
  have hk2' : (ms : ℚ) + 500 + 1 ≤ 1000 * k + 1000 := by exact_mod_cast hk2
  have hge := toDouble_ge ((ms : ℚ) / 1000) (512 * k - 256) hq (by
    push_cast
    rw [le_div_iff₀ (by norm_num)]
    linarith)
  have hlt := toDouble_lt ((ms : ℚ) / 1000) (512 * k + 256) hq (by
    push_cast
    rw [div_lt_iff₀ (by norm_num)]
    linarith)
  push_cast at hge hlt
  unfold mathRound
  rw [Int.floor_eq_iff]
  constructor <;> linarith

/-- The minutes of less than 2^49 seconds: the division by 60 rounded to a
double, then floored, gives the integer quotient. -/
theorem floor_toDouble_div (t : ℕ) (ht : t < 2 ^ 49) :
    ⌊toDouble ((t : ℚ) / 60)⌋ = ((t / 60 : ℕ) : ℤ) := by
  have hq : |(t : ℚ) / 60| < 2 ^ 44 := by
    have h1 : (t : ℚ) < 2 ^ 49 := by exact_mod_cast ht
    have h0 : (0 : ℚ) ≤ t := Nat.cast_nonneg t
    rw [abs_lt]
    constructor
    · rw [lt_div_iff₀ (by norm_num)]
      linarith
    · rw [div_lt_iff₀ (by norm_num)]
      linarith
  have hn1 : 60 * (t / 60) ≤ t := by omega
  have hn2 : t + 1 ≤ 60 * (t / 60) + 60 := by omega
  generalize t / 60 = n at hn1 hn2
  have hn1' : (60 : ℚ) * n ≤ t := by exact_mod_cast hn1
  have hn2' : (t : ℚ) + 1 ≤ 60 * n + 60 := by exact_mod_cast hn2
  have hge := toDouble_ge ((t : ℚ) / 60) (512 * n) hq (by
    push_cast
    rw [le_div_iff₀ (by norm_num)]
    linarith)
  have hlt := toDouble_lt ((t : ℚ) / 60) (512 * (n + 1)) hq (by
    push_cast
    rw [div_lt_iff₀ (by norm_num)]
    linarith)
  push_cast at hge hlt
  rw [Int.floor_eq_iff]
  push_cast
  constructor <;> linarith

/-- The double nearest to a number between 2^(52+e) and 2^(53+e) is the
multiple of 2^e nearest to it. -/
theorem toDouble_of_bounds (q : ℚ) (e : ℕ) (n : ℤ) (h1 : (2 : ℚ) ^ (52 + e) ≤ |q|)
    (h2 : |q| < 2 ^ (53 + e)) (h3 : (n : ℚ) - 1 / 2 < q / 2 ^ e)
    (h4 : q / 2 ^ e < (n : ℚ) + 1 / 2) : toDouble q = (n : ℚ) * 2 ^ e := by
  have hpos : 0 < |q| := lt_of_lt_of_le (by positivity) h1
  have h0 : q ≠ 0 := abs_pos.mp hpos
  have hlog : Int.log 2 |q| = ((52 + e : ℕ) : ℤ) := by
    apply le_antisymm
    · have : Int.log 2 |q| < ((52 + e : ℕ) : ℤ) + 1 := by
        apply (Int.lt_zpow_iff_log_lt (by decide) hpos).mp
        have hc : ((52 + e : ℕ) : ℤ) + 1 = ((53 + e : ℕ) : ℤ) := by
          push_cast
          ring
        rw [hc, zpow_natCast]
        exact_mod_cast h2
      omega
    · apply (Int.zpow_le_iff_le_log (by decide) hpos).mp
      rw [zpow_natCast]
      exact_mod_cast h1
  have he : Int.log 2 |q| - 52 = ((e : ℕ) : ℤ) := by
    rw [hlog]
    push_cast
    ring
  unfold toDouble
  rw [if_neg h0]
  dsimp only
  rw [he, zpow_natCast, roundHalfEven_eq _ n h3 h4]

/-- The number of milliseconds `largeDuration` is a double. -/
theorem toDouble_largeDuration_self :
    toDouble ((largeDuration : ℤ) : ℚ) = ((largeDuration : ℤ) : ℚ) := by
  rw [toDouble_of_bounds _ 33 6984919309616089 _ _ _ _] <;>
    norm_num [largeDuration, abs_of_pos]

/-- The division of `largeDuration` by 1000 is rounded to 6 * 10^22. -/
theorem toDouble_largeDuration :
    toDouble (((largeDuration : ℤ) : ℚ) / 1000) = 60000000000000000000000 := by
  rw [toDouble_of_bounds _ 23 7152557373046875 _ _ _ _] <;>
    norm_num [largeDuration, abs_of_pos]

/-- The division of 6 * 10^22 by 60 is 10^21, a double. -/
theorem toDouble_minutes :
    toDouble (((60000000000000000000000 : ℕ) : ℚ) / 60) = 1000000000000000000000 := by
  rw [toDouble_of_bounds _ 17 7629394531250000 _ _ _ _] <;> norm_num [abs_of_pos]

/-- The number 10^21 is a double. -/
theorem toDouble_lo : toDouble ((1000000000000000000000 : ℕ) : ℚ) = 1000000000000000000000 := by
  rw [toDouble_of_bounds _ 17 7629394531250000 _ _ _ _] <;> norm_num [abs_of_pos]

/-- The number 2 * 10^21 is a double. -/
theorem toDouble_hi : toDouble ((2000000000000000000000 : ℕ) : ℚ) = 2000000000000000000000 := by
  rw [toDouble_of_bounds _ 18 7629394531250000 _ _ _ _] <;> norm_num [abs_of_pos]

theorem totalSec_largeDuration :
    totalSec ((largeDuration : ℤ) : ℚ) = 60000000000000000000000 := by
  unfold totalSec
  rw [toDouble_largeDuration]
  have h : mathRound (60000000000000000000000 : ℚ) = 60000000000000000000000 := by
    unfold mathRound
    rw [Int.floor_eq_iff]
    norm_num
  rw [h]
  rfl

theorem repr_length : (Nat.repr 1000000000000000000000).length = 22 := by
  decide

theorem shortestFrom_lo (x len fuel k : ℕ)
    (h1 : roundsTo x (x / 10 ^ (len - k) * 10 ^ (len - k)) = true)
    (h2 : roundsTo x (x / 10 ^ (len - k) * 10 ^ (len - k) + 10 ^ (len - k)) = false) :
    shortestFrom x len (fuel + 1) k = x / 10 ^ (len - k) * 10 ^ (len - k) := by
  simp only [shortestFrom, h1, h2]
  simp

theorem roundsTo_lo : roundsTo 1000000000000000000000 1000000000000000000000 = true := by
  unfold roundsTo
  rw [toDouble_lo]
  simp

theorem roundsTo_hi : roundsTo 1000000000000000000000 2000000000000000000000 = false := by
  unfold roundsTo
  rw [toDouble_hi]
  simp

/-- With one significant digit, 10^21 reads back as the double 10^21 and
2 * 10^21 does not: the shortest decimal of 10^21 is 10^21 itself. -/
theorem shortestDecimal_minutes :
    shortestDecimal 1000000000000000000000 = 1000000000000000000000 := by
  unfold shortestDecimal
  rw [repr_length]
  have h := shortestFrom_lo 1000000000000000000000 22 21 1 roundsTo_lo roundsTo_hi
  exact h

theorem exponentForm_minutes : exponentForm 1000000000000000000000 = "1e+21" := by
  decide

/-- The conversion `String(1e21)` is in exponent notation. -/
theorem numberToString_minutes : numberToString 1000000000000000000000 = "1e+21" := by
  unfold numberToString
  rw [if_neg (by norm_num)]
  dsimp only
  rw [shortestDecimal_minutes, if_neg (by norm_num), exponentForm_minutes]

/-! ### The text of a duration -/

theorem formatDuration_eq (ms : ℚ) :
    formatDuration ms
      = if ⌊toDouble ((totalSec ms : ℚ) / 60)⌋.toNat ≤ 0
          then padStart2 (numberToString (totalSec ms % 60)) ++ "s"
          else numberToString ⌊toDouble ((totalSec ms : ℚ) / 60)⌋.toNat ++ ":"
            ++ padStart2 (numberToString (totalSec ms % 60)) ++ " min" := rfl

theorem numberToString_small (m : ℕ) (h : m < 2 ^ 53) : numberToString m = Nat.repr m := by
  unfold numberToString
  rw [if_pos h]

theorem specSeconds_eq (ms : ℤ) : specSeconds ms = (max 0 ((ms + 500) / 1000)).toNat := by
  have h := mathRound_intCast ms
  unfold mathRound at h
  unfold specSeconds
  rw [h]

/-- For a safe integer number of milliseconds the seconds that the code
computes in doubles are those of exact arithmetic. -/
theorem totalSec_eq_specSeconds (ms : ℤ) (hlo : -(2 ^ 53 - 1) ≤ ms) (hhi : ms ≤ 2 ^ 53 - 1) :
    totalSec ((ms : ℤ) : ℚ) = specSeconds ms := by
  rw [specSeconds_eq]
  unfold totalSec
  rw [mathRound_toDouble ms hlo hhi]

/-- The text of a number of seconds below 2^49 that the code computes in
doubles is the text of exact arithmetic. -/
theorem formatDuration_of_totalSec (ms : ℚ) (h : totalSec ms < 2 ^ 49) :
    formatDuration ms = formatSeconds (totalSec ms) := by
  have hs : totalSec ms % 60 < 60 := Nat.mod_lt _ (by decide)
  have hm : totalSec ms / 60 < 2 ^ 53 := by omega
  rw [formatDuration_eq, floor_toDouble_div _ h, Int.toNat_ofNat,
    numberToString_small _ (by omega), numberToString_small _ hm,
    padStart2_repr _ (by omega)]
  unfold formatSeconds
  by_cases ht : totalSec ms < 60
  · rw [if_pos (by omega), if_pos ht, Nat.mod_eq_of_lt ht]
  · rw [if_neg (by omega), if_neg ht]

/-- The text of a number of seconds determines that number. -/
theorem formatSeconds_injective (a b : ℕ) (h : formatSeconds a = formatSeconds b) : a = b := by
  unfold formatSeconds at h
  have hs : a % 60 < 60 := Nat.mod_lt _ (by decide)
  have hs' : b % 60 < 60 := Nat.mod_lt _ (by decide)
  by_cases h1 : a < 60 <;> by_cases h2 : b < 60
  · rw [if_pos h1, if_pos h2] at h
    have hd := congrArg String.data h
    simp only [String.data_append, twoDigits, List.cons_append, List.nil_append,
      List.cons.injEq, and_true] at hd
    have he : twoDigits a = twoDigits b := by
      simp only [twoDigits, hd.1, hd.2]
    exact twoDigits_injective _ _ (by omega) (by omega) he
  · rw [if_pos h1, if_neg h2] at h
    have hd := congrArg (fun s => s.data.reverse.head?) h
    simp [String.data_append, twoDigits] at hd
  · rw [if_neg h1, if_pos h2] at h
    have hd := congrArg (fun s => s.data.reverse.head?) h
    simp [String.data_append, twoDigits] at hd
  · rw [if_neg h1, if_neg h2] at h
    have hd := congrArg String.data h
    simp only [String.data_append, List.append_assoc] at hd
    have hl : (":".data ++ ((twoDigits (a % 60)).data ++ " min".data)).length
        = (":".data ++ ((twoDigits (b % 60)).data ++ " min".data)).length := by
      simp [twoDigits]
    obtain ⟨hm, hr⟩ := List.append_inj' hd hl
    have hm' : a / 60 = b / 60 := by
      rw [← decimalValue_repr (a / 60), ← decimalValue_repr (b / 60), hm]
    simp only [twoDigits, List.cons_append, List.nil_append, List.cons.injEq,
      List.append_cancel_right_eq, true_and] at hr
    have he : twoDigits (a % 60) = twoDigits (b % 60) := by
      simp only [twoDigits]
      simp_all
    have := twoDigits_injective _ _ (by omega) (by omega) he
    omega

/-- C20, as stated, fails: for the integer `ms = 60000000000000001140850688`, a
double, exact rounding gives `t = 60000000000000001140851` and the text
`1000000000000000019014:11 min`, and `formatDuration`, whose divisions are
rounded to doubles, computes 6 * 10^22 seconds and 10^21 minutes, which `String`
writes in exponent notation: its text is `1e+21:00 min`. -/
theorem formatDuration_exponent_notation :
    toDouble ((largeDuration : ℤ) : ℚ) = ((largeDuration : ℤ) : ℚ)
      ∧ formatDuration ((largeDuration : ℤ) : ℚ) = "1e+21:00 min"
      ∧ totalSec ((largeDuration : ℤ) : ℚ) = 60000000000000000000000
      ∧ specSeconds largeDuration = 60000000000000001140851
      ∧ ¬ specSeconds largeDuration < 60
      ∧ formatSeconds (specSeconds largeDuration) = "1000000000000000019014:11 min"
      ∧ formatDuration ((largeDuration : ℤ) : ℚ) ≠ formatSeconds (specSeconds largeDuration) := by
  have hspec : specSeconds largeDuration = 60000000000000001140851 := by
    rw [specSeconds_eq]
    decide
  have hfs : formatSeconds 60000000000000001140851 = "1000000000000000019014:11 min" := by
    decide
  have hfd : formatDuration ((largeDuration : ℤ) : ℚ) = "1e+21:00 min" := by
    rw [formatDuration_eq, totalSec_largeDuration, toDouble_minutes]
    have hfl : ⌊(1000000000000000000000 : ℚ)⌋.toNat = 1000000000000000000000 := by
      have h : ⌊(1000000000000000000000 : ℚ)⌋ = 1000000000000000000000 := by
        rw [Int.floor_eq_iff]
        norm_num
      rw [h]
      rfl
    rw [hfl, if_neg (by norm_num), numberToString_minutes,
      numberToString_small _ (lt_of_lt_of_le (Nat.mod_lt _ (by decide)) (by decide))]
    decide
  refine ⟨toDouble_largeDuration_self, hfd, totalSec_largeDuration, hspec, ?_, ?_, ?_⟩
  · rw [hspec]
    decide
  · rw [hspec, hfs]
  · rw [hfd, hspec, hfs]
    decide

/-- C20, amended: for every integer `ms` with `|ms| ≤ 2^53 - 1`, with `t` the
maximum of 0 and `ms / 1000` rounded to the nearest integer, halves up, the
seconds that `formatDuration` computes are `t`, and `formatDuration ms` is the
two-digit zero-padded `t` followed by `s` when `t < 60`, and otherwise `t / 60`
in decimal digits, a colon, the two-digit zero-padded `t % 60` and ` min`; the
seconds field lies in 00..59, every `ms ≤ 0` gives `00s`, and among these `ms`
the text determines `t`. -/
theorem formatDuration_spec (ms : ℤ) (hlo : -(2 ^ 53 - 1) ≤ ms) (hhi : ms ≤ 2 ^ 53 - 1) :
    (1000 * mathRound ((ms : ℚ) / 1000) - 500 ≤ ms
        ∧ ms < 1000 * mathRound ((ms : ℚ) / 1000) + 500)
      ∧ totalSec ms = (max 0 (mathRound ((ms : ℚ) / 1000))).toNat
      ∧ formatDuration ms = formatSeconds (specSeconds ms)
      ∧ (totalSec ms < 60 → formatDuration ms = twoDigits (totalSec ms) ++ "s")
      ∧ (60 ≤ totalSec ms →
          formatDuration ms
            = Nat.repr (totalSec ms / 60) ++ ":" ++ twoDigits (totalSec ms % 60) ++ " min")
      ∧ totalSec ms % 60 < 60
      ∧ (ms ≤ 0 → formatDuration ms = "00s")
      ∧ (∀ ms' : ℤ, -(2 ^ 53 - 1) ≤ ms' → ms' ≤ 2 ^ 53 - 1 →
          formatDuration ms = formatDuration ms' → totalSec ms' = totalSec ms) := by
  have hbound : ∀ n : ℤ, n ≤ 2 ^ 53 - 1 → specSeconds n < 2 ^ 49 := by
    intro n hn
    rw [specSeconds_eq]
    omega
  have ht := totalSec_eq_specSeconds ms hlo hhi
  have hfd : formatDuration ms = formatSeconds (totalSec ms) :=
    formatDuration_of_totalSec _ (by rw [ht]; exact hbound ms hhi)
  refine ⟨?_, ?_, ?_, ?_, ?_, Nat.mod_lt _ (by decide), ?_, ?_⟩
  · rw [mathRound_intCast]
    omega
  · rw [ht]
    rfl
  · rw [hfd, ht]
  · intro h
    rw [hfd]
    unfold formatSeconds
    rw [if_pos h]
  · intro h
    rw [hfd]
    unfold formatSeconds
    rw [if_neg (by omega)]
  · intro hms
    have h0 : specSeconds ms = 0 := by
      rw [specSeconds_eq]
      omega
    rw [hfd, ht, h0]
    rfl
  · intro ms' hlo' hhi' h
    have ht' := totalSec_eq_specSeconds ms' hlo' hhi'
    have hfd' : formatDuration ms' = formatSeconds (totalSec ms') :=
      formatDuration_of_totalSec _ (by rw [ht']; exact hbound ms' hhi')
    rw [hfd, hfd'] at h
    exact (formatSeconds_injective _ _ h).symm

/-- The text of C20 for a duration of 61000 ms, a safe integer: one minute and
one second. -/
theorem formatDuration_spec_witness :
    (-(2 ^ 53 - 1) : ℤ) ≤ 61000 ∧ (61000 : ℤ) ≤ 2 ^ 53 - 1
      ∧ formatDuration ((61000 : ℤ) : ℚ) = formatSeconds (specSeconds 61000)
      ∧ formatSeconds (specSeconds 61000) = "1:01 min" :=
  ⟨by decide, by decide, (formatDuration_spec 61000 (by decide) (by decide)).2.2.1, by
    rw [specSeconds_eq]
    decide⟩

end RMTemplate
